import Mathlib

/-!
Verification of the realtime game-server core (Go source): message model and
wire codec, player records, UDP reliability engine, stream game state, and the
persistence gateway's session operations.

Conventions of the embedding:
* `uuid.UUID` values are modelled by their canonical dashed strings.
* `float32` coordinates and health are modelled by `Rat` (no float arithmetic
  occurs in the modelled code paths, only assignment and comparison).
* `uint32` counters are modelled by `Nat` kept below `2 ^ 32`; the Go wrapping
  increments/additions are written with an explicit `% 2 ^ 32`.
* `time.Time` instants are modelled by `Int` milliseconds.
* Go maps are modelled by key-unique association lists with `lookupA`,
  `insertA`, `eraseA`, `updateA`.
* Side effects (socket writes, database calls) are returned as explicit
  effect lists; handlers become pure functions `state → state × effects`.
-/

/-- A JSON value, the image of Go's `encoding/json` for `interface{}` data.
Numbers are modelled exactly as rationals. -/
inductive Json where
  | null : Json
  | bool : Bool → Json
  | num : Rat → Json
  | str : String → Json
  | arr : List Json → Json
  | obj : List (String × Json) → Json

/-- The live player entity (`Player` in message.go). -/
structure Player where
  ID : String
  Name : String
  X : Rat
  Y : Rat
  Health : Rat
  Score : Nat
  deriving DecidableEq, Repr

/-- Constructor `NewPlayer` from message.go: position (0,0), health 100, score 0. -/
def NewPlayer (id name : String) : Player :=
  { ID := id, Name := name, X := 0, Y := 0, Health := 100, Score := 0 }

/-- A game message as constructed in memory by the `NewXxxMessage` helpers of
message.go: the envelope's type tag together with its typed payload. -/
inductive GMsg where
  | playerJoin (playerID name : String)
  | playerLeave (playerID : String)
  | playerMove (playerID : String) (x y : Rat)
  | playerAction (playerID action : String)
  | gameState (players : List Player) (timestamp : Int)
  | chat (playerID message : String)
  | error (message : String)
  | heartbeat (playerID : String) (sequence : Nat)
  | ack (sequence : Nat)
  deriving DecidableEq, Repr

/-! ## Wire codec (message.go): `UDPPacket.Serialize` / `DeserializeUDPPacket`

Go serializes with `encoding/json`; deserialization reads the envelope's
`data` field back as a generic JSON value (`interface{}` becomes
`map[string]interface{}`).  The wire-level message is therefore a type tag
plus a JSON payload. -/

/-- The wire-level message envelope: `GameMessage` as it exists after
`json.Unmarshal`, i.e. a `type` tag and a generic JSON `data` payload. -/
structure GameMessage where
  type : String
  data : Json

/-- The UDP packet wrapper (`UDPPacket` in message.go). `Sequence` is a
`uint32` (a `Nat` below `2 ^ 32`), `Timestamp` an `int64`. -/
structure UDPPacket where
  Sequence : Nat
  Timestamp : Int
  Message : GameMessage
  Reliable : Bool

/-- Field lookup in a JSON object literal, as `json.Unmarshal` matches
struct tags against object keys. -/
def jsonField (k : String) : List (String × Json) → Option Json
  | [] => none
  | (k', v) :: rest => if k = k' then some v else jsonField k rest

/-- Decoding a JSON number into a `uint32` field: `encoding/json` rejects
fractional, negative and overflowing values. -/
def jsonToU32 : Json → Option Nat
  | Json.num q =>
      if q.den = 1 ∧ 0 ≤ q.num ∧ q.num < 2 ^ 32 then some q.num.toNat else none
  | _ => none

/-- Decoding a JSON number into an `int64` field. -/
def jsonToI64 : Json → Option Int
  | Json.num q =>
      if q.den = 1 ∧ -2 ^ 63 ≤ q.num ∧ q.num < 2 ^ 63 then some q.num else none
  | _ => none

/-- Decoding a JSON boolean. -/
def jsonToBool : Json → Option Bool
  | Json.bool b => some b
  | _ => none

/-- Decoding a JSON string. -/
def jsonToStr : Json → Option String
  | Json.str s => some s
  | _ => none

/-- `UDPPacket.Serialize`: `json.Marshal` of the packet struct, writing the
four tagged fields; the envelope marshals as its `type` tag and `data`
payload. -/
def UDPPacket.Serialize (p : UDPPacket) : Json :=
  Json.obj
    [("sequence", Json.num (p.Sequence : Rat)),
     ("timestamp", Json.num (p.Timestamp : Rat)),
     ("message", Json.obj [("type", Json.str p.Message.type), ("data", p.Message.data)]),
     ("reliable", Json.bool p.Reliable)]

/-- Decoding a JSON value into the `GameMessage` envelope: the `type` tag
must be a string; the `data` branch stays a generic JSON value. -/
def jsonToMessage : Json → Option GameMessage
  | Json.obj mfields =>
      (jsonField "type" mfields).bind fun jt =>
      (jsonToStr jt).bind fun ty =>
      (jsonField "data" mfields).map fun d => { type := ty, data := d }
  | _ => none

/-- Reading the packet's `sequence` field as a `uint32`. -/
def parseSequence (fields : List (String × Json)) : Option Nat :=
  (jsonField "sequence" fields).bind jsonToU32

/-- Reading the packet's `timestamp` field as an `int64`. -/
def parseTimestamp (fields : List (String × Json)) : Option Int :=
  (jsonField "timestamp" fields).bind jsonToI64

/-- Reading the packet's `message` field as an envelope. -/
def parseMessage (fields : List (String × Json)) : Option GameMessage :=
  (jsonField "message" fields).bind jsonToMessage

/-- Reading the packet's `reliable` field as a boolean. -/
def parseReliable (fields : List (String × Json)) : Option Bool :=
  (jsonField "reliable" fields).bind jsonToBool

/-- `DeserializeUDPPacket`: `json.Unmarshal` into a `UDPPacket`, reading each
tagged field; the inner envelope keeps its `data` branch as a generic JSON
value.  Any missing or ill-typed field is a decode error. -/
def DeserializeUDPPacket (j : Json) : Option UDPPacket :=
  match j with
  | Json.obj fields =>
      (parseSequence fields).bind fun seq =>
      (parseTimestamp fields).bind fun ts =>
      (parseMessage fields).bind fun msg =>
      (parseReliable fields).map fun r =>
        { Sequence := seq, Timestamp := ts, Message := msg, Reliable := r }
  | _ => none

/-! ## Persistence gateway: sessions (database part of the source)

`game_sessions` rows and `Database.EndSession`, whose SQL is
`UPDATE game_sessions SET session_end = datetime('now')
 WHERE id = ? AND session_end IS NULL`. -/

/-- A `game_sessions` row. -/
structure GameSession where
  ID : Int
  PlayerID : String
  SessionStart : Int
  SessionEnd : Option Int
  Protocol : String
  ClientIP : Option String
  deriving DecidableEq, Repr

/-- `Database.EndSession` acting on the stored rows: set the end timestamp on
the row with the given id if and only if its end timestamp is still null. -/
def EndSession (sessionID : Int) (now : Int) (rows : List GameSession) :
    List GameSession :=
  rows.map fun s =>
    if s.ID = sessionID ∧ s.SessionEnd = none then { s with SessionEnd := some now } else s

/-! ## Association-list maps

Go's `map` values, keyed by strings or sequence numbers, are modelled by
key-unique association lists. -/

/-- Map lookup. -/
def lookupA {α β : Type} [DecidableEq α] (k : α) : List (α × β) → Option β
  | [] => none
  | (k', v) :: rest => if k = k' then some v else lookupA k rest

/-- Map deletion (`delete(m, k)`). -/
def eraseA {α β : Type} [DecidableEq α] (k : α) (l : List (α × β)) : List (α × β) :=
  l.filter fun p => decide (p.1 ≠ k)

/-- Map insertion/overwrite (`m[k] = v`). -/
def insertA {α β : Type} [DecidableEq α] (k : α) (v : β) (l : List (α × β)) :
    List (α × β) :=
  (k, v) :: eraseA k l

/-- In-place update of the value stored under a key (mutation through a
pointer held in the map). -/
def updateA {α β : Type} [DecidableEq α] (k : α) (f : β → β) (l : List (α × β)) :
    List (α × β) :=
  l.map fun p => if p.1 = k then (p.1, f p.2) else p

/-! ## UDP server model (udp_server part of the source)

State and handlers of `UDPGameServer`.  Each handler takes the inputs the Go
code reads from the packet (already parsed, as `handlePacket` parses them),
plus the current instant `now : Int` (milliseconds), and returns the new
server state together with the list of emitted effects, in emission order.
`CreateSession`'s database-assigned id is an input of the admission event. -/

/-- The in-memory UDP packet as constructed by `NewUDPPacket` (its message in
typed form, before serialization). -/
structure UPacket where
  Sequence : Nat
  Timestamp : Int
  Message : GMsg
  Reliable : Bool
  deriving DecidableEq, Repr

/-- A reliable packet awaiting acknowledgement (`PendingPacket`). -/
structure PendingPacket where
  Packet : UPacket
  Timestamp : Int
  deriving DecidableEq, Repr

/-- Per-endpoint client record (`UDPClient`). -/
structure UDPClient where
  ID : String
  Addr : String
  Player : Player
  LastSeen : Int
  Sequence : Nat
  AckSequence : Nat
  PendingAcks : List (Nat × PendingPacket)
  SessionID : Option Int
  deriving DecidableEq, Repr

/-- `NewUDPClient`: fresh player, `LastSeen = now`, zero counters, no
pending packets. -/
def NewUDPClient (id addr name : String) (sessionID : Option Int) (now : Int) :
    UDPClient :=
  { ID := id, Addr := addr, Player := NewPlayer id name, LastSeen := now,
    Sequence := 0, AckSequence := 0, PendingAcks := [], SessionID := sessionID }

/-- A database call issued by the realtime path (fire-and-forget). -/
inductive DBOp where
  | createSession (playerID protocol : String) (clientIP : Option String)
  | createOrUpdatePlayer (p : Player)
  | logEvent (playerID : String) (sessionID : Option Int) (eventType : String)
  | updatePlayerPosition (playerID : String) (x y : Rat)
  | updatePlayerScore (playerID : String) (score : Nat)
  | saveChatMessage (playerID : String) (sessionID : Option Int) (message : String)
  | endSession (sessionID : Int)
  deriving DecidableEq, Repr

/-- An observable effect of a UDP handler: a datagram written to the socket
(`conn.WriteToUDP` of the serialized packet) or a database call. -/
inductive UEffect where
  | sendTo (addr : String) (packet : UPacket)
  | db (op : DBOp)
  deriving DecidableEq, Repr

/-- `UDPClient.UpdatePosition`: set x, y and refresh `LastSeen`. -/
def UDPClient.UpdatePosition (uc : UDPClient) (x y : Rat) (now : Int) : UDPClient :=
  { uc with Player := { uc.Player with X := x, Y := y }, LastSeen := now }

/-- `UDPClient.UpdateHealth`: store the given health value (no clamping in
the source). -/
def UDPClient.UpdateHealth (uc : UDPClient) (health : Rat) : UDPClient :=
  { uc with Player := { uc.Player with Health := health } }

/-- `UDPClient.AddScore`: `Score += points` on the `uint32` score (wraps). -/
def UDPClient.AddScore (uc : UDPClient) (points : Nat) : UDPClient :=
  { uc with Player := { uc.Player with Score := (uc.Player.Score + points) % 2 ^ 32 } }

/-- `UDPClient.NextSequence`: `Sequence++` (a `uint32`, wraps) and return the
incremented value. -/
def UDPClient.NextSequence (uc : UDPClient) : UDPClient × Nat :=
  let s := (uc.Sequence + 1) % 2 ^ 32
  ({ uc with Sequence := s }, s)

/-- `UDPClient.IsTimeout`: `time.Since(LastSeen) > 30 * time.Second`. -/
def UDPClient.IsTimeout (uc : UDPClient) (now : Int) : Bool :=
  decide (now - uc.LastSeen > 30000)

/-- `UDPClient.AddPendingAck`: store the packet under its sequence with the
current instant. -/
def UDPClient.AddPendingAck (uc : UDPClient) (packet : UPacket) (now : Int) : UDPClient :=
  { uc with PendingAcks :=
      insertA packet.Sequence { Packet := packet, Timestamp := now } uc.PendingAcks }

/-- `UDPClient.RemovePendingAck`: delete the entry under the sequence. -/
def UDPClient.RemovePendingAck (uc : UDPClient) (sequence : Nat) : UDPClient :=
  { uc with PendingAcks := eraseA sequence uc.PendingAcks }

/-- The mutable part of `UDPGameServer`: the client table keyed by the
stringified remote endpoint and the reverse index from player id to
endpoint. -/
structure UDPGameServer where
  clients : List (String × UDPClient)
  clientByID : List (String × String)
  deriving DecidableEq, Repr

/-- The server state right after `NewUDPGameServer`: both maps empty. -/
def initServer : UDPGameServer := { clients := [], clientByID := [] }

/-- `sendAck`: an `Ack` envelope wrapped with sequence 0, unreliable, sent
once; never entered into any pending map. -/
def sendAck (addr : String) (sequence : Nat) (now : Int) : UEffect :=
  UEffect.sendTo addr
    { Sequence := 0, Timestamp := now, Message := GMsg.ack sequence, Reliable := false }

/-- The per-client body of `broadcastReliable`, iterating the client table:
skip the excluded endpoint; otherwise allocate the client's next sequence,
wrap with `reliable=true`, record as pending, and send once. -/
def broadcastReliableList (message : GMsg) (exclude : Option String) (now : Int) :
    List (String × UDPClient) → List (String × UDPClient) × List UEffect
  | [] => ([], [])
  | (addrStr, client) :: rest =>
      let step := broadcastReliableList message exclude now rest
      if exclude = some addrStr then ((addrStr, client) :: step.1, step.2)
      else
        let next := client.NextSequence
        let packet : UPacket :=
          { Sequence := next.2, Timestamp := now, Message := message, Reliable := true }
        ((addrStr, (next.1.AddPendingAck packet now)) :: step.1,
         UEffect.sendTo addrStr packet :: step.2)

/-- `broadcastReliable` on the server state. -/
def broadcastReliable (s : UDPGameServer) (message : GMsg) (exclude : Option String)
    (now : Int) : UDPGameServer × List UEffect :=
  let r := broadcastReliableList message exclude now s.clients
  ({ s with clients := r.1 }, r.2)

/-- `broadcastUnreliable`: sequence 0, `reliable=false`, sent once to every
non-excluded endpoint, no pending entry, no state change. -/
def broadcastUnreliable (s : UDPGameServer) (message : GMsg) (exclude : Option String)
    (now : Int) : List UEffect :=
  s.clients.filterMap fun p =>
    if exclude = some p.1 then none
    else some (UEffect.sendTo p.1
      { Sequence := 0, Timestamp := now, Message := message, Reliable := false })

/-- `sendGameStateToClient`: snapshot all players, wrap the `GameState`
message reliably with the destination client's next sequence, record it as
pending and send it. -/
def sendGameStateToClient (s : UDPGameServer) (addr : String) (now : Int) :
    UDPGameServer × List UEffect :=
  let players := s.clients.map fun p => p.2.Player
  let gameStateMessage := GMsg.gameState players now
  match lookupA addr s.clients with
  | some client =>
      let next := client.NextSequence
      let packet : UPacket :=
        { Sequence := next.2, Timestamp := now, Message := gameStateMessage,
          Reliable := true }
      ({ s with clients := updateA addr (fun _ => next.1.AddPendingAck packet now) s.clients },
       [UEffect.sendTo addr packet])
  | none => (s, [])

/-- `handleHeartbeat`.  For an unknown endpoint: admission — create the
session (its database-assigned id arrives as `newSessionID`), build the
client with name `Player_` + first 8 characters of the id, upsert the player,
log a `join` event, insert into both indices, broadcast `PlayerJoin` reliably
to the others, send the `GameState` reliably to the new endpoint.  For a
known endpoint: refresh `LastSeen` and record the carried sequence.  Either
way, acknowledge the heartbeat. -/
def handleHeartbeat (s : UDPGameServer) (addr ip playerID : String) (sequence : Nat)
    (now : Int) (newSessionID : Option Int) : UDPGameServer × List UEffect :=
  match lookupA addr s.clients with
  | none =>
      let clientName := "Player_" ++ playerID.take 8
      let client := NewUDPClient playerID addr clientName newSessionID now
      let dbEffs : List UEffect :=
        [UEffect.db (DBOp.createSession playerID "udp" (some ip)),
         UEffect.db (DBOp.createOrUpdatePlayer client.Player),
         UEffect.db (DBOp.logEvent playerID newSessionID "join")]
      let s1 : UDPGameServer :=
        { clients := insertA addr client s.clients,
          clientByID := insertA playerID addr s.clientByID }
      let joined := broadcastReliable s1 (GMsg.playerJoin playerID clientName) (some addr) now
      let stated := sendGameStateToClient joined.1 addr now
      (stated.1, dbEffs ++ joined.2 ++ stated.2 ++ [sendAck addr sequence now])
  | some _ =>
      let touch := fun (c : UDPClient) => { c with LastSeen := now, AckSequence := sequence }
      ({ s with clients := updateA addr touch s.clients }, [sendAck addr sequence now])

/-- `handleAck`: clear the matching pending packet of the sender, if the
endpoint is known. -/
def handleAck (s : UDPGameServer) (addr : String) (sequence : Nat) :
    UDPGameServer × List UEffect :=
  match lookupA addr s.clients with
  | some _ =>
      ({ s with clients := updateA addr (fun c => c.RemovePendingAck sequence) s.clients }, [])
  | none => (s, [])

/-- `handlePlayerMove`: when the endpoint owner's id matches the payload id,
update the in-memory position, persist it, log a `move` event only when the
packet sequence is divisible by 10, acknowledge, then broadcast the move
unreliably to all others; otherwise drop silently. -/
def handlePlayerMove (s : UDPGameServer) (addr playerID : String) (x y : Rat)
    (sequence : Nat) (now : Int) : UDPGameServer × List UEffect :=
  match lookupA addr s.clients with
  | some client =>
      if client.ID = playerID then
        let s' : UDPGameServer :=
          { s with clients := updateA addr (fun c => c.UpdatePosition x y now) s.clients }
        let logEffs : List UEffect :=
          if sequence % 10 = 0 then
            [UEffect.db (DBOp.logEvent playerID client.SessionID "move")]
          else []
        (s', [UEffect.db (DBOp.updatePlayerPosition playerID x y)] ++ logEffs
              ++ [sendAck addr sequence now]
              ++ broadcastUnreliable s' (GMsg.playerMove playerID x y) (some addr) now)
      else (s, [])
  | none => (s, [])

/-- `UDPGameServer.handlePlayerAction`: on an identity match, `attack` only
logs, `pickup` adds 10 to the score (persisting the new value and logging),
an unknown action only logs; each acknowledged.  A mismatch is dropped
silently. -/
def UDPGameServer.handlePlayerAction (s : UDPGameServer) (addr playerID action : String)
    (sequence : Nat) (now : Int) : UDPGameServer × List UEffect :=
  match lookupA addr s.clients with
  | some client =>
      if client.ID = playerID then
        if action = "attack" then
          (s, [UEffect.db (DBOp.logEvent playerID client.SessionID "attack"),
               sendAck addr sequence now])
        else if action = "pickup" then
          let newScore := (client.Player.Score + 10) % 2 ^ 32
          ({ s with clients := updateA addr (fun c => c.AddScore 10) s.clients },
           [UEffect.db (DBOp.updatePlayerScore playerID newScore),
            UEffect.db (DBOp.logEvent playerID client.SessionID "pickup"),
            sendAck addr sequence now])
        else (s, [sendAck addr sequence now])
      else (s, [])
  | none => (s, [])

/-- `handleChat`: on an identity match, persist the chat, log a `chat` event,
acknowledge, then broadcast the chat reliably to all others.  A mismatch is
dropped silently. -/
def handleChat (s : UDPGameServer) (addr playerID message : String) (sequence : Nat)
    (now : Int) : UDPGameServer × List UEffect :=
  match lookupA addr s.clients with
  | some client =>
      if client.ID = playerID then
        let chatted := broadcastReliable s (GMsg.chat playerID message) (some addr) now
        (chatted.1,
         [UEffect.db (DBOp.saveChatMessage playerID client.SessionID message),
          UEffect.db (DBOp.logEvent playerID client.SessionID "chat"),
          sendAck addr sequence now] ++ chatted.2)
      else (s, [])
  | none => (s, [])

/-- One tick of `startHeartbeatTask` (every 5 s): an unreliable
`Heartbeat(client.ID, 0)` to every connected endpoint; no state change. -/
def heartbeatTask (s : UDPGameServer) (now : Int) : List UEffect :=
  s.clients.map fun p =>
    UEffect.sendTo p.1
      { Sequence := 0, Timestamp := now, Message := GMsg.heartbeat p.2.ID 0,
        Reliable := false }

/-- One tick of `startCleanupTask` (every 10 s): remove every timed-out
client from the client table and its id from the reverse index.  Nothing
else: no broadcast, no database call. -/
def cleanupTask (s : UDPGameServer) (now : Int) : UDPGameServer × List UEffect :=
  let removedIDs := (s.clients.filter fun p => p.2.IsTimeout now).map fun p => p.2.ID
  ({ clients := s.clients.filter fun p => !(p.2.IsTimeout now),
     clientByID := s.clientByID.filter fun p => !(removedIDs.contains p.1) },
   [])

/-- The per-client body of one tick of `startReliabilityTask` (every 50 ms):
for each pending packet older than 100 ms, re-send the same packet and
refresh its timestamp. -/
def resendClient (addr : String) (now : Int) (c : UDPClient) : UDPClient × List UEffect :=
  ({ c with PendingAcks := c.PendingAcks.map fun q =>
        if decide (now - q.2.Timestamp > 100) then (q.1, { q.2 with Timestamp := now })
        else q },
   c.PendingAcks.filterMap fun q =>
     if decide (now - q.2.Timestamp > 100) then some (UEffect.sendTo addr q.2.Packet)
     else none)

/-- One tick of `startReliabilityTask` over the whole client table. -/
def reliabilityList (now : Int) :
    List (String × UDPClient) → List (String × UDPClient) × List UEffect
  | [] => ([], [])
  | (addrStr, client) :: rest =>
      let here := resendClient addrStr now client
      let there := reliabilityList now rest
      ((addrStr, here.1) :: there.1, here.2 ++ there.2)

/-- One tick of `startReliabilityTask` on the server state. -/
def reliabilityTask (s : UDPGameServer) (now : Int) : UDPGameServer × List UEffect :=
  let r := reliabilityList now s.clients
  ({ s with clients := r.1 }, r.2)

/-- An external stimulus of the UDP server: a decoded inbound packet
dispatched by `handlePacket`, or a tick of one of the three background
tasks. -/
inductive UEvent where
  | heartbeat (addr ip playerID : String) (sequence : Nat) (now : Int)
      (newSessionID : Option Int)
  | ackPacket (addr : String) (sequence : Nat)
  | move (addr playerID : String) (x y : Rat) (sequence : Nat) (now : Int)
  | action (addr playerID act : String) (sequence : Nat) (now : Int)
  | chatPacket (addr playerID message : String) (sequence : Nat) (now : Int)
  | heartbeatTick (now : Int)
  | cleanupTick (now : Int)
  | resendTick (now : Int)
  deriving DecidableEq, Repr

/-- Dispatch of one event against the server state. -/
def stepServer (s : UDPGameServer) : UEvent → UDPGameServer × List UEffect
  | UEvent.heartbeat addr ip playerID sequence now sid =>
      handleHeartbeat s addr ip playerID sequence now sid
  | UEvent.ackPacket addr sequence => handleAck s addr sequence
  | UEvent.move addr playerID x y sequence now =>
      handlePlayerMove s addr playerID x y sequence now
  | UEvent.action addr playerID act sequence now =>
      UDPGameServer.handlePlayerAction s addr playerID act sequence now
  | UEvent.chatPacket addr playerID message sequence now =>
      handleChat s addr playerID message sequence now
  | UEvent.heartbeatTick now => (s, heartbeatTask s now)
  | UEvent.cleanupTick now => cleanupTask s now
  | UEvent.resendTick now => reliabilityTask s now

/-- The state component of one step. -/
def stepState (s : UDPGameServer) (e : UEvent) : UDPGameServer :=
  (stepServer s e).1

/-- Running a sequence of events from a state. -/
def runServer (s : UDPGameServer) : List UEvent → UDPGameServer
  | [] => s
  | e :: es => runServer (stepState s e) es

/-! ## Stream transport model (client / game parts of the source)

`Client` (client.go), `GameState` (game part) and its operations.  Outbound
messages enqueued through `Client.SendMessage` become `sendMsg` effects;
clients are keyed by their player id as in `GameState.clients`. -/

/-- A stream client (`Client` in client.go): the minted id and its player.
The socket and outbound queue carry no game state and are left out. -/
structure Client where
  ID : String
  player : Player
  deriving DecidableEq, Repr

/-- `NewClient`: a fresh player via `NewPlayer`. -/
def NewClient (id name : String) : Client :=
  { ID := id, player := NewPlayer id name }

/-- `Client.UpdatePosition`: set x and y. -/
def Client.UpdatePosition (c : Client) (x y : Rat) : Client :=
  { c with player := { c.player with X := x, Y := y } }

/-- `Client.UpdateHealth`: store the given health value (no clamping in the
source). -/
def Client.UpdateHealth (c : Client) (health : Rat) : Client :=
  { c with player := { c.player with Health := health } }

/-- `Client.AddScore`: `Score += points` on the `uint32` score (wraps). -/
def Client.AddScore (c : Client) (points : Nat) : Client :=
  { c with player := { c.player with Score := (c.player.Score + points) % 2 ^ 32 } }

/-- An observable effect of the stream game state: a message enqueued to one
client's outbound queue, a database call, or closing a client's queue. -/
inductive SEffect where
  | sendMsg (clientID : String) (message : GMsg)
  | db (op : DBOp)
  | closeSend (clientID : String)
  deriving DecidableEq, Repr

/-- The mutable roster of `GameState`. -/
structure GameState where
  clients : List (String × Client)
  deriving DecidableEq, Repr

/-- The roster right after `NewGameState`. -/
def initGameState : GameState := { clients := [] }

/-- `broadcastMessage`: send to every client except the optional excluded
id. -/
def GameState.broadcastMessage (gs : GameState) (message : GMsg)
    (exclude : Option String) : List SEffect :=
  gs.clients.filterMap fun p =>
    if exclude = some p.1 then none else some (SEffect.sendMsg p.1 message)

/-- `sendGameStateToClient` (stream): snapshot all players and send the
`GameState` message to the one client. -/
def GameState.sendGameStateToClient (gs : GameState) (clientID : String) (now : Int) :
    List SEffect :=
  let players := gs.clients.map fun p => p.2.player
  match lookupA clientID gs.clients with
  | some _ => [SEffect.sendMsg clientID (GMsg.gameState players now)]
  | none => []

/-- `broadcastGameState`: snapshot all players and, when the roster is
non-empty, broadcast the `GameState` message to everyone. -/
def GameState.broadcastGameState (gs : GameState) (now : Int) : List SEffect :=
  let players := gs.clients.map fun p => p.2.player
  if players.length > 0 then gs.broadcastMessage (GMsg.gameState players now) none
  else []

/-- `GameState.AddClient`: persist the player, log a `join` event, insert
into the roster, send `PlayerJoin` to the new client itself, broadcast
`PlayerJoin` to the other clients, then send the full `GameState` snapshot to
the new client. -/
def GameState.AddClient (gs : GameState) (client : Client) (sessionID : Option Int)
    (now : Int) : GameState × List SEffect :=
  let clientID := client.ID
  let clientName := client.player.Name
  let gs' : GameState := { clients := insertA clientID client gs.clients }
  let joinMessage := GMsg.playerJoin clientID clientName
  (gs',
   [SEffect.db (DBOp.createOrUpdatePlayer client.player),
    SEffect.db (DBOp.logEvent clientID sessionID "join"),
    SEffect.sendMsg clientID joinMessage]
   ++ gs'.broadcastMessage joinMessage (some clientID)
   ++ gs'.sendGameStateToClient clientID now)

/-- `GameState.RemoveClient`: delete from the roster, log a `leave` event,
broadcast `PlayerLeave` to everyone remaining, close the outbound queue. -/
def GameState.RemoveClient (gs : GameState) (clientID : String) :
    GameState × List SEffect :=
  match lookupA clientID gs.clients with
  | some _ =>
      let gs' : GameState := { clients := eraseA clientID gs.clients }
      (gs',
       [SEffect.db (DBOp.logEvent clientID none "leave")]
       ++ gs'.broadcastMessage (GMsg.playerLeave clientID) none
       ++ [SEffect.closeSend clientID])
  | none => (gs, [])

/-- A parsed inbound stream message, as `HandleMessage` reads the envelope's
fields before dispatch; `other` covers every unrecognized tag. -/
inductive SMsg where
  | playerMove (playerID : String) (x y : Rat)
  | playerAction (playerID action : String)
  | chat (playerID message : String)
  | other
  deriving DecidableEq, Repr

/-- `GameState.handlePlayerAction` (stream): `attack` only logs, `pickup`
adds 10 to the score (persisting the new value and logging), an unknown
action only logs. -/
def GameState.handlePlayerAction (gs : GameState) (clientID action : String)
    (sessionID : Option Int) : GameState × List SEffect :=
  match lookupA clientID gs.clients with
  | some client =>
      if action = "attack" then
        (gs, [SEffect.db (DBOp.logEvent clientID sessionID "attack")])
      else if action = "pickup" then
        let newScore := (client.player.Score + 10) % 2 ^ 32
        ({ clients := updateA clientID (fun c => c.AddScore 10) gs.clients },
         [SEffect.db (DBOp.updatePlayerScore clientID newScore),
          SEffect.db (DBOp.logEvent clientID sessionID "pickup")])
      else (gs, [])
  | none => (gs, [])

/-- `GameState.HandleMessage`: dispatch by tag after checking the sender is
in the roster.  The payload's player id must equal the owning connection's
id; a mismatch is dropped with only a log line. -/
def GameState.HandleMessage (gs : GameState) (clientID : String) (message : SMsg)
    (sessionID : Option Int) (now : Int) : GameState × List SEffect :=
  match lookupA clientID gs.clients with
  | none => (gs, [])
  | some _ =>
      match message with
      | SMsg.playerMove playerID x y =>
          if playerID = clientID then
            let gs' : GameState :=
              { clients := updateA clientID (fun c => c.UpdatePosition x y) gs.clients }
            let moveMsg := GMsg.playerMove playerID x y
            (gs',
             [SEffect.db (DBOp.updatePlayerPosition clientID x y),
              SEffect.db (DBOp.logEvent clientID sessionID "move")]
             ++ gs'.broadcastMessage moveMsg (some clientID)
             ++ gs'.broadcastGameState now)
          else (gs, [])
      | SMsg.playerAction playerID action =>
          if playerID = clientID then gs.handlePlayerAction clientID action sessionID
          else (gs, [])
      | SMsg.chat playerID chatText =>
          if playerID = clientID then
            let chatMsg := GMsg.chat playerID chatText
            (gs,
             [SEffect.db (DBOp.saveChatMessage clientID sessionID chatText),
              SEffect.db (DBOp.logEvent clientID sessionID "chat")]
             ++ gs.broadcastMessage chatMsg none)
          else (gs, [])
      | SMsg.other => (gs, [])

/-- An external stimulus of the stream game state. -/
inductive SEvent where
  | add (clientID : String) (sessionID : Option Int) (now : Int)
  | msg (clientID : String) (message : SMsg) (sessionID : Option Int) (now : Int)
  | remove (clientID : String)
  deriving DecidableEq, Repr

/-- Dispatch of one stream event: `add` registers a freshly minted client as
`HandleConnection` + `HandleClientMessages` do, with the display name
`Player_` + first 8 characters of the id. -/
def stepGame (gs : GameState) : SEvent → GameState × List SEffect
  | SEvent.add clientID sessionID now =>
      gs.AddClient (NewClient clientID ("Player_" ++ clientID.take 8)) sessionID now
  | SEvent.msg clientID message sessionID now =>
      gs.HandleMessage clientID message sessionID now
  | SEvent.remove clientID => gs.RemoveClient clientID

/-- The state component of one stream step. -/
def stepGameState (gs : GameState) (e : SEvent) : GameState :=
  (stepGame gs e).1

/-- Running a sequence of stream events from a state. -/
def runGame (gs : GameState) : List SEvent → GameState
  | [] => gs
  | e :: es => runGame (stepGameState gs e) es

/-! ## Helper lemmas about the association-list maps -/

theorem lookupA_cons {α β : Type} [DecidableEq α] (k a : α) (b : β) (l : List (α × β)) :
    lookupA k ((a, b) :: l) = if k = a then some b else lookupA k l := rfl

theorem updateA_cons {α β : Type} [DecidableEq α] (k a : α) (b : β) (f : β → β)
    (l : List (α × β)) :
    updateA k f ((a, b) :: l) =
      (if a = k then (a, f b) else (a, b)) :: updateA k f l := rfl

theorem lookupA_updateA_self {α β : Type} [DecidableEq α] (k : α) (f : β → β)
    (l : List (α × β)) : lookupA k (updateA k f l) = (lookupA k l).map f := by
  induction l with
  | nil => simp [lookupA, updateA]
  | cons p rest ih =>
      obtain ⟨a, b⟩ := p
      rw [updateA_cons]
      by_cases h : a = k
      · rw [if_pos h, lookupA_cons, lookupA_cons]
        have h' : k = a := h.symm
        rw [if_pos h', if_pos h']
        rfl
      · have h' : k ≠ a := fun hh => h hh.symm
        rw [if_neg h, lookupA_cons, lookupA_cons, if_neg h', if_neg h']
        exact ih

theorem lookupA_updateA_ne {α β : Type} [DecidableEq α] (k k' : α) (f : β → β)
    (l : List (α × β)) (h : k' ≠ k) : lookupA k' (updateA k f l) = lookupA k' l := by
  induction l with
  | nil => simp [lookupA, updateA]
  | cons p rest ih =>
      obtain ⟨a, b⟩ := p
      rw [updateA_cons]
      by_cases ha : a = k
      · have hb : k' ≠ a := fun hh => h (hh.trans ha)
        rw [if_pos ha, lookupA_cons, lookupA_cons, if_neg hb, if_neg hb]
        exact ih
      · rw [if_neg ha, lookupA_cons, lookupA_cons]
        by_cases hb : k' = a
        · rw [if_pos hb, if_pos hb]
        · rw [if_neg hb, if_neg hb]
          exact ih

theorem mem_of_lookupA {α β : Type} [DecidableEq α] {k : α} {v : β}
    {l : List (α × β)} (h : lookupA k l = some v) : (k, v) ∈ l := by
  induction l with
  | nil => simp [lookupA] at h
  | cons p rest ih =>
      obtain ⟨a, b⟩ := p
      rw [lookupA_cons] at h
      by_cases hk : k = a
      · subst hk
        rw [if_pos rfl] at h
        obtain rfl : b = v := by simpa using h
        exact List.mem_cons_self _ _
      · rw [if_neg hk] at h
        exact List.mem_cons_of_mem _ (ih h)

theorem lookupA_eq_none_of_forall {α β : Type} [DecidableEq α] {k : α}
    {l : List (α × β)} (h : ∀ p ∈ l, p.1 ≠ k) : lookupA k l = none := by
  induction l with
  | nil => rfl
  | cons p rest ih =>
      obtain ⟨a, b⟩ := p
      have h1 : a ≠ k := h (a, b) (List.mem_cons_self _ _)
      have h2 : k ≠ a := fun hh => h1 hh.symm
      rw [lookupA_cons, if_neg h2]
      exact ih fun q hq => h q (List.mem_cons_of_mem _ hq)

theorem forall_ne_of_lookupA_eq_none {α β : Type} [DecidableEq α] {k : α}
    {l : List (α × β)} (h : lookupA k l = none) : ∀ p ∈ l, p.1 ≠ k := by
  induction l with
  | nil => simp
  | cons p rest ih =>
      obtain ⟨a, b⟩ := p
      rw [lookupA_cons] at h
      by_cases hk : k = a
      · rw [if_pos hk] at h; exact absurd h (by simp)
      · rw [if_neg hk] at h
        intro q hq
        rcases List.mem_cons.mp hq with h1 | h2
        · rw [h1]; exact fun hh => hk hh.symm
        · exact ih h q h2

theorem eraseA_eq_self_of_lookupA_eq_none {α β : Type} [DecidableEq α] {k : α}
    {l : List (α × β)} (h : lookupA k l = none) : eraseA k l = l := by
  have h' := forall_ne_of_lookupA_eq_none h
  unfold eraseA
  exact List.filter_eq_self.mpr fun p hp => by simpa using h' p hp

theorem lookupA_filter_of_pred_true {α β : Type} [DecidableEq α] {k : α} {v : β}
    {l : List (α × β)} (pred : α × β → Bool) (h : lookupA k l = some v)
    (hp : pred (k, v) = true) : lookupA k (l.filter pred) = some v := by
  induction l with
  | nil => simp [lookupA] at h
  | cons p rest ih =>
      obtain ⟨a, b⟩ := p
      rw [lookupA_cons] at h
      by_cases hk : k = a
      · subst hk
        obtain rfl : b = v := by simpa using h
        simp [List.filter_cons, hp, lookupA_cons]
      · rw [if_neg hk] at h
        rw [List.filter_cons]
        cases hpred : pred (a, b) with
        | false => simpa [hpred] using ih h
        | true => simpa [hpred, lookupA_cons, if_neg hk] using ih h

theorem lookupA_filter_of_key_false {α β : Type} [DecidableEq α] (k : α)
    (g : α → Bool) (l : List (α × β)) (h : g k = false) :
    lookupA k (l.filter fun p => g p.1) = none := by
  apply lookupA_eq_none_of_forall
  intro p hp
  have hmem := List.of_mem_filter hp
  intro hk
  rw [hk, h] at hmem
  exact Bool.false_ne_true hmem

theorem lookupA_filter_value_none {α β : Type} [DecidableEq α] {k : α} {v : β}
    {l : List (α × β)} (pred : α × β → Bool) (hd : (l.map Prod.fst).Nodup)
    (h : lookupA k l = some v) (hp : pred (k, v) = false) :
    lookupA k (l.filter pred) = none := by
  induction l with
  | nil => simp [lookupA] at h
  | cons p rest ih =>
      obtain ⟨a, b⟩ := p
      rw [List.map_cons, List.nodup_cons] at hd
      rw [lookupA_cons] at h
      by_cases hk : k = a
      · subst hk
        obtain rfl : b = v := by simpa using h
        rw [List.filter_cons, hp]
        apply lookupA_eq_none_of_forall
        intro q hq
        intro hq1
        exact hd.1 (by
          rw [← hq1]
          exact List.mem_map.mpr ⟨q, List.mem_of_mem_filter hq, rfl⟩)
      · rw [if_neg hk] at h
        rw [List.filter_cons]
        cases hpred : pred (a, b) with
        | false => exact ih hd.2 h
        | true =>
            rw [if_pos rfl]
            rw [lookupA_cons, if_neg hk]
            exact ih hd.2 h

theorem lookupA_nodup_of_mem {α β : Type} [DecidableEq α] {k : α} {v : β}
    {l : List (α × β)} (hd : (l.map Prod.fst).Nodup) (h : (k, v) ∈ l) :
    lookupA k l = some v := by
  induction l with
  | nil => simp at h
  | cons p rest ih =>
      obtain ⟨a, b⟩ := p
      rw [List.map_cons, List.nodup_cons] at hd
      rcases List.mem_cons.mp h with h1 | h2
      · have hk : k = a := congrArg Prod.fst h1
        have hv : v = b := congrArg Prod.snd h1
        rw [lookupA_cons, if_pos hk, hv]
      · have hne : k ≠ a := by
          intro hk
          subst hk
          exact hd.1 (List.mem_map.mpr ⟨(k, v), h2, rfl⟩)
        rw [lookupA_cons, if_neg hne]
        exact ih hd.2 h2

theorem value_eq_of_mem_nodup {α β : Type} [DecidableEq α] {k : α} {v1 v2 : β}
    {l : List (α × β)} (hd : (l.map Prod.fst).Nodup) (h1 : (k, v1) ∈ l)
    (h2 : (k, v2) ∈ l) : v1 = v2 := by
  have e1 := lookupA_nodup_of_mem hd h1
  have e2 := lookupA_nodup_of_mem hd h2
  rw [e1] at e2
  injection e2

/-! ## Claim C6: wire-codec round trip -/

theorem jsonToU32_natCast (seq : Nat) (h1 : seq < 2 ^ 32) :
    jsonToU32 (Json.num (seq : Rat)) = some seq := by
  simp only [jsonToU32]
  rw [if_pos, Rat.num_natCast, Int.toNat_natCast]
  refine ⟨Rat.den_natCast seq, ?_, ?_⟩
  · rw [Rat.num_natCast]; exact Int.natCast_nonneg seq
  · rw [Rat.num_natCast]; exact_mod_cast h1

theorem jsonToI64_intCast (ts : Int) (h2 : -2 ^ 63 ≤ ts) (h3 : ts < 2 ^ 63) :
    jsonToI64 (Json.num (ts : Rat)) = some ts := by
  simp only [jsonToI64]
  rw [if_pos, Rat.num_intCast]
  refine ⟨Rat.den_intCast ts, ?_, ?_⟩
  · rw [Rat.num_intCast]; exact h2
  · rw [Rat.num_intCast]; exact h3

theorem serialize_fields (seq : Nat) (ts : Int) (r : Bool) (ty : String) (d : Json) :
    UDPPacket.Serialize ⟨seq, ts, ⟨ty, d⟩, r⟩ =
    Json.obj [("sequence", Json.num (seq : Rat)), ("timestamp", Json.num (ts : Rat)),
      ("message", Json.obj [("type", Json.str ty), ("data", d)]),
      ("reliable", Json.bool r)] := rfl

theorem deserialize_fields (seq : Nat) (ts : Int) (r : Bool) (ty : String) (d : Json) :
    DeserializeUDPPacket (Json.obj [("sequence", Json.num (seq : Rat)),
      ("timestamp", Json.num (ts : Rat)),
      ("message", Json.obj [("type", Json.str ty), ("data", d)]),
      ("reliable", Json.bool r)]) =
    ((parseSequence [("sequence", Json.num (seq : Rat)),
        ("timestamp", Json.num (ts : Rat)),
        ("message", Json.obj [("type", Json.str ty), ("data", d)]),
        ("reliable", Json.bool r)]).bind fun sq =>
      (parseTimestamp [("sequence", Json.num (seq : Rat)),
        ("timestamp", Json.num (ts : Rat)),
        ("message", Json.obj [("type", Json.str ty), ("data", d)]),
        ("reliable", Json.bool r)]).bind fun t =>
      (parseMessage [("sequence", Json.num (seq : Rat)),
        ("timestamp", Json.num (ts : Rat)),
        ("message", Json.obj [("type", Json.str ty), ("data", d)]),
        ("reliable", Json.bool r)]).bind fun msg =>
      (parseReliable [("sequence", Json.num (seq : Rat)),
        ("timestamp", Json.num (ts : Rat)),
        ("message", Json.obj [("type", Json.str ty), ("data", d)]),
        ("reliable", Json.bool r)]).map fun rb =>
        { Sequence := sq, Timestamp := t, Message := msg, Reliable := rb }) := rfl

theorem parseSequence_serialized (seq : Nat) (ts : Int) (r : Bool) (ty : String)
    (d : Json) (h1 : seq < 2 ^ 32) :
    parseSequence
      [("sequence", Json.num (seq : Rat)), ("timestamp", Json.num (ts : Rat)),
       ("message", Json.obj [("type", Json.str ty), ("data", d)]),
       ("reliable", Json.bool r)] = some seq := by
  show (some (Json.num (seq : Rat))).bind jsonToU32 = some seq
  rw [Option.some_bind]
  exact jsonToU32_natCast seq h1

theorem parseTimestamp_serialized (seq : Nat) (ts : Int) (r : Bool) (ty : String)
    (d : Json) (h2 : -2 ^ 63 ≤ ts) (h3 : ts < 2 ^ 63) :
    parseTimestamp
      [("sequence", Json.num (seq : Rat)), ("timestamp", Json.num (ts : Rat)),
       ("message", Json.obj [("type", Json.str ty), ("data", d)]),
       ("reliable", Json.bool r)] = some ts := by
  show (some (Json.num (ts : Rat))).bind jsonToI64 = some ts
  rw [Option.some_bind]
  exact jsonToI64_intCast ts h2 h3

theorem parseMessage_serialized (seq : Nat) (ts : Int) (r : Bool) (ty : String)
    (d : Json) :
    parseMessage
      [("sequence", Json.num (seq : Rat)), ("timestamp", Json.num (ts : Rat)),
       ("message", Json.obj [("type", Json.str ty), ("data", d)]),
       ("reliable", Json.bool r)] = some { type := ty, data := d } := rfl

theorem parseReliable_serialized (seq : Nat) (ts : Int) (r : Bool) (ty : String)
    (d : Json) :
    parseReliable
      [("sequence", Json.num (seq : Rat)), ("timestamp", Json.num (ts : Rat)),
       ("message", Json.obj [("type", Json.str ty), ("data", d)]),
       ("reliable", Json.bool r)] = some r := rfl

/-- C6: serializing any UDP packet value with the datagram codec and then
deserializing the resulting bytes yields the original packet, including the
envelope's type tag and its payload fields.  The `uint32` sequence and
`int64` timestamp carry their Go range bounds as hypotheses. -/
theorem C6_serialize_roundtrip (p : UDPPacket) (h1 : p.Sequence < 2 ^ 32)
    (h2 : -2 ^ 63 ≤ p.Timestamp) (h3 : p.Timestamp < 2 ^ 63) :
    DeserializeUDPPacket p.Serialize = some p := by
  obtain ⟨seq, ts, ⟨ty, d⟩, r⟩ := p
  simp only at h1 h2 h3
  rw [serialize_fields, deserialize_fields,
    parseSequence_serialized seq ts r ty d h1,
    parseTimestamp_serialized seq ts r ty d h2 h3,
    parseMessage_serialized seq ts r ty d,
    parseReliable_serialized seq ts r ty d]
  rfl

/-- Witness for C6 at a concrete chat packet. -/
theorem C6_serialize_roundtrip_witness :
    DeserializeUDPPacket
      (UDPPacket.Serialize ⟨5, 1700000000000,
        ⟨"Chat", Json.obj [("player_id", Json.str "11111111-1111-1111-1111-111111111111"),
                           ("message", Json.str "hello")]⟩, true⟩) =
    some ⟨5, 1700000000000,
      ⟨"Chat", Json.obj [("player_id", Json.str "11111111-1111-1111-1111-111111111111"),
                         ("message", Json.str "hello")]⟩, true⟩ :=
  C6_serialize_roundtrip _ (by norm_num) (by norm_num) (by norm_num)

/-! ## Claim C8: end_session is idempotent -/

/-- C8: `end_session` sets the session's end timestamp iff it is still null,
so a second call (at any later instant) leaves the stored rows exactly as
after the first call. -/
theorem C8_endSession_idempotent (sessionID t1 t2 : Int) (rows : List GameSession) :
    EndSession sessionID t2 (EndSession sessionID t1 rows) =
      EndSession sessionID t1 rows := by
  unfold EndSession
  rw [List.map_map]
  apply List.map_congr_left
  intro s _
  by_cases h1 : s.ID = sessionID ∧ s.SessionEnd = none
  · simp [h1]
  · simp only [Function.comp_apply, if_neg h1]

/-! ## Claim C3: action semantics on the player record -/

/-- C3: on both transports, a `PlayerAction` that passes the identity check
behaves as follows on the in-memory player: `pickup` sets the 32-bit unsigned
score to `old + 10` (the record-update form shows position, health, name and
id unchanged); `attack` and every unrecognized action leave the state
completely unchanged. -/
theorem C3_action_semantics (s : UDPGameServer) (gs : GameState)
    (addr playerID clientID : String) (uc : UDPClient) (c : Client)
    (sequence : Nat) (now : Int) (sessionID : Option Int)
    (hu : lookupA addr s.clients = some uc) (hid : uc.ID = playerID)
    (hc : lookupA clientID gs.clients = some c) :
    (lookupA addr
        (UDPGameServer.handlePlayerAction s addr playerID "pickup" sequence now).1.clients
      = some { uc with Player :=
          { uc.Player with Score := (uc.Player.Score + 10) % 2 ^ 32 } })
    ∧ (UDPGameServer.handlePlayerAction s addr playerID "attack" sequence now).1 = s
    ∧ (∀ act, act ≠ "attack" → act ≠ "pickup" →
        (UDPGameServer.handlePlayerAction s addr playerID act sequence now).1 = s)
    ∧ (lookupA clientID
        (GameState.handlePlayerAction gs clientID "pickup" sessionID).1.clients
      = some { c with player :=
          { c.player with Score := (c.player.Score + 10) % 2 ^ 32 } })
    ∧ (GameState.handlePlayerAction gs clientID "attack" sessionID).1 = gs
    ∧ (∀ act, act ≠ "attack" → act ≠ "pickup" →
        (GameState.handlePlayerAction gs clientID act sessionID).1 = gs) := by
  have hpa : ¬ ("pickup" : String) = "attack" := by decide
  refine ⟨?_, ?_, ?_, ?_, ?_, ?_⟩
  · simp only [UDPGameServer.handlePlayerAction, hu]
    rw [if_pos hid, if_neg hpa]
    simp only [if_true, lookupA_updateA_self, hu, Option.map_some]
    rfl
  · simp only [UDPGameServer.handlePlayerAction, hu]
    rw [if_pos hid]
    simp only [if_true]
  · intro act h1 h2
    simp only [UDPGameServer.handlePlayerAction, hu]
    rw [if_pos hid, if_neg h1, if_neg h2]
  · simp only [GameState.handlePlayerAction, hc]
    rw [if_neg hpa]
    simp only [if_true, lookupA_updateA_self, hc, Option.map_some]
    rfl
  · simp only [GameState.handlePlayerAction, hc]
    simp only [if_true]
  · intro act h1 h2
    simp only [GameState.handlePlayerAction, hc]
    rw [if_neg h1, if_neg h2]

/-- Witness for C3: one UDP client and one stream client, concrete pickup
and attack. -/
theorem C3_action_semantics_witness :
    (lookupA "1.2.3.4:5"
        (UDPGameServer.handlePlayerAction
          ⟨[("1.2.3.4:5", NewUDPClient "P" "1.2.3.4:5" "N" none 0)], [("P", "1.2.3.4:5")]⟩
          "1.2.3.4:5" "P" "pickup" 7 0).1.clients
      = some { NewUDPClient "P" "1.2.3.4:5" "N" none 0 with Player :=
          { (NewUDPClient "P" "1.2.3.4:5" "N" none 0).Player with
              Score := ((NewUDPClient "P" "1.2.3.4:5" "N" none 0).Player.Score + 10) % 2 ^ 32 } })
    ∧ (GameState.handlePlayerAction ⟨[("P", NewClient "P" "N")]⟩ "P" "attack" none).1
      = ⟨[("P", NewClient "P" "N")]⟩ :=
  ⟨(C3_action_semantics
      ⟨[("1.2.3.4:5", NewUDPClient "P" "1.2.3.4:5" "N" none 0)], [("P", "1.2.3.4:5")]⟩
      ⟨[("P", NewClient "P" "N")]⟩ "1.2.3.4:5" "P" "P"
      (NewUDPClient "P" "1.2.3.4:5" "N" none 0) (NewClient "P" "N") 7 0 none
      rfl rfl rfl).1,
   (C3_action_semantics
      ⟨[("1.2.3.4:5", NewUDPClient "P" "1.2.3.4:5" "N" none 0)], [("P", "1.2.3.4:5")]⟩
      ⟨[("P", NewClient "P" "N")]⟩ "1.2.3.4:5" "P" "P"
      (NewUDPClient "P" "1.2.3.4:5" "N" none 0) (NewClient "P" "N") 7 0 none
      rfl rfl rfl).2.2.2.2.1⟩

/-! ## Claim C10: timeout eviction touches nothing but the two indices -/

/-- C10: one tick of the cleanup task emits no effect at all — no broadcast,
no `end_session`, no `leave` event, no socket write — and beyond deleting
every timed-out client from the client table and its id from the reverse
index it leaves every surviving client's entry (player fields, counters,
pending-ack map) exactly as it was. -/
theorem C10_cleanup_frame (s : UDPGameServer) (now : Int) (addr : String)
    (c : UDPClient) (hd : (s.clients.map Prod.fst).Nodup)
    (h : lookupA addr s.clients = some c) :
    (cleanupTask s now).2 = []
    ∧ (c.IsTimeout now = false →
        lookupA addr (cleanupTask s now).1.clients = some c)
    ∧ (c.IsTimeout now = true →
        lookupA addr (cleanupTask s now).1.clients = none
        ∧ lookupA c.ID (cleanupTask s now).1.clientByID = none) := by
  refine ⟨rfl, ?_, ?_⟩
  · intro ht
    exact lookupA_filter_of_pred_true _ h (by simp [ht])
  · intro ht
    constructor
    · exact lookupA_filter_value_none _ hd h (by simp [ht])
    · have hmem : (addr, c) ∈ s.clients.filter fun p => p.2.IsTimeout now :=
        List.mem_filter.mpr ⟨mem_of_lookupA h, by simpa using ht⟩
      have hid : c.ID ∈ (s.clients.filter fun p => p.2.IsTimeout now).map
          fun p => p.2.ID :=
        List.mem_map.mpr ⟨(addr, c), hmem, rfl⟩
      have hcont : ((s.clients.filter fun p => p.2.IsTimeout now).map
          fun p => p.2.ID).contains c.ID = true :=
        List.elem_eq_true_of_mem hid
      have hg : (fun k => !(((s.clients.filter fun p => p.2.IsTimeout now).map
          fun p => p.2.ID).contains k)) c.ID = false := by
        show (!(((s.clients.filter fun p => p.2.IsTimeout now).map
          fun p => p.2.ID).contains c.ID)) = false
        rw [hcont]
        rfl
      exact lookupA_filter_of_key_false c.ID
        (fun k => !(((s.clients.filter fun p => p.2.IsTimeout now).map
          fun p => p.2.ID).contains k)) s.clientByID hg

/-- Witness for C10: a single client whose last heartbeat is 40 s old is
evicted from both indices by the sweep, which emits nothing. -/
theorem C10_cleanup_frame_witness :
    (cleanupTask ⟨[("1.2.3.4:5", NewUDPClient "P" "1.2.3.4:5" "N" none 0)],
        [("P", "1.2.3.4:5")]⟩ 40000).2 = []
    ∧ lookupA "1.2.3.4:5"
        (cleanupTask ⟨[("1.2.3.4:5", NewUDPClient "P" "1.2.3.4:5" "N" none 0)],
          [("P", "1.2.3.4:5")]⟩ 40000).1.clients = none
    ∧ lookupA "P"
        (cleanupTask ⟨[("1.2.3.4:5", NewUDPClient "P" "1.2.3.4:5" "N" none 0)],
          [("P", "1.2.3.4:5")]⟩ 40000).1.clientByID = none := by
  refine ⟨(C10_cleanup_frame
    ⟨[("1.2.3.4:5", NewUDPClient "P" "1.2.3.4:5" "N" none 0)], [("P", "1.2.3.4:5")]⟩
    40000 "1.2.3.4:5"
    (NewUDPClient "P" "1.2.3.4:5" "N" none 0) (by decide) rfl).1, ?_, ?_⟩
  · exact ((C10_cleanup_frame
      ⟨[("1.2.3.4:5", NewUDPClient "P" "1.2.3.4:5" "N" none 0)], [("P", "1.2.3.4:5")]⟩
      40000 "1.2.3.4:5"
      (NewUDPClient "P" "1.2.3.4:5" "N" none 0) (by decide) rfl).2.2 (by decide)).1
  · exact ((C10_cleanup_frame
      ⟨[("1.2.3.4:5", NewUDPClient "P" "1.2.3.4:5" "N" none 0)], [("P", "1.2.3.4:5")]⟩
      40000 "1.2.3.4:5"
      (NewUDPClient "P" "1.2.3.4:5" "N" none 0) (by decide) rfl).2.2 (by decide)).2

/-! ## Claim C4: datagram move semantics and the move-log throttle -/

theorem mem_broadcastUnreliable {s : UDPGameServer} {message : GMsg}
    {exclude : Option String} {now : Int} {e : UEffect}
    (he : e ∈ broadcastUnreliable s message exclude now) :
    ∃ a, e = UEffect.sendTo a ⟨0, now, message, false⟩ := by
  unfold broadcastUnreliable at he
  rcases List.mem_filterMap.mp he with ⟨p, _, hcond⟩
  by_cases h : exclude = some p.1
  · rw [if_pos h] at hcond
    exact absurd hcond (by simp)
  · rw [if_neg h] at hcond
    exact ⟨p.1, by injection hcond with h1; exact h1.symm⟩

theorem broadcastUnreliable_mem {s : UDPGameServer} {message : GMsg}
    {exclude : Option String} {now : Int} {a : String} {c : UDPClient}
    (h : lookupA a s.clients = some c) (hne : exclude ≠ some a) :
    UEffect.sendTo a ⟨0, now, message, false⟩ ∈ broadcastUnreliable s message exclude now := by
  unfold broadcastUnreliable
  exact List.mem_filterMap.mpr ⟨(a, c), mem_of_lookupA h, by rw [if_neg hne]⟩

/-- C4: a datagram `PlayerMove` passing the identity check always updates the
in-memory position (refreshing `last_seen`), always persists the position,
logs a `move` event exactly when the packet sequence is divisible by 10, and
emits the unreliable move broadcast to every other connected endpoint; over
sequences 1..25 exactly 10 and 20 satisfy the throttle. -/
theorem C4_move_semantics (s : UDPGameServer) (addr playerID : String) (x y : Rat)
    (sequence : Nat) (now : Int) (c : UDPClient)
    (h : lookupA addr s.clients = some c) (hid : c.ID = playerID) :
    lookupA addr (handlePlayerMove s addr playerID x y sequence now).1.clients
      = some { c with Player := { c.Player with X := x, Y := y }, LastSeen := now }
    ∧ (UEffect.db (DBOp.logEvent playerID c.SessionID "move")
        ∈ (handlePlayerMove s addr playerID x y sequence now).2 ↔ sequence % 10 = 0)
    ∧ UEffect.db (DBOp.updatePlayerPosition playerID x y)
        ∈ (handlePlayerMove s addr playerID x y sequence now).2
    ∧ (∀ a' c', lookupA a' s.clients = some c' → a' ≠ addr →
        UEffect.sendTo a' ⟨0, now, GMsg.playerMove playerID x y, false⟩
          ∈ (handlePlayerMove s addr playerID x y sequence now).2)
    ∧ ((List.range 25).map (fun n => n + 1)).filter (fun n => n % 10 == 0)
        = [10, 20] := by
  simp only [handlePlayerMove, h]
  rw [if_pos hid]
  refine ⟨?_, ⟨?_, ?_⟩, ?_, ?_, by decide⟩
  · show lookupA addr (updateA addr (fun c => c.UpdatePosition x y now) s.clients)
      = _
    rw [lookupA_updateA_self, h]
    rfl
  · intro hmem
    by_contra hs
    rw [if_neg hs] at hmem
    simp only [List.append_nil, List.nil_append, List.mem_append,
      List.mem_singleton] at hmem
    rcases hmem with (h1 | h1) | h1
    · exact absurd h1 (by simp)
    · exact absurd h1 (by simp [sendAck])
    · obtain ⟨a, ha⟩ := mem_broadcastUnreliable h1
      exact absurd ha (by simp)
  · intro hs
    rw [if_pos hs]
    simp
  · simp
  · intro a' c' h' hne
    have hl : lookupA a' (updateA addr (fun c => c.UpdatePosition x y now) s.clients)
        = some c' := by
      rw [lookupA_updateA_ne _ _ _ _ hne]
      exact h'
    have hb := @broadcastUnreliable_mem
      { s with clients := updateA addr (fun c => c.UpdatePosition x y now) s.clients }
      (GMsg.playerMove playerID x y) (some addr) now a' c' hl
      (by intro hcontra; exact hne (by injection hcontra with h2; exact h2.symm))
    exact List.mem_append.mpr (Or.inr hb)

/-- Witness for C4: two connected endpoints, a move with sequence 10 logs a
`move` event and is gossiped unreliably to the other endpoint. -/
theorem C4_move_semantics_witness :
    UEffect.db (DBOp.logEvent "P" (NewUDPClient "P" "A" "N" none 0).SessionID "move")
      ∈ (handlePlayerMove
          ⟨[("A", NewUDPClient "P" "A" "N" none 0), ("B", NewUDPClient "Q" "B" "M" none 0)],
           [("P", "A"), ("Q", "B")]⟩ "A" "P" 3 4 10 5).2
    ∧ UEffect.sendTo "B" ⟨0, 5, GMsg.playerMove "P" 3 4, false⟩
      ∈ (handlePlayerMove
          ⟨[("A", NewUDPClient "P" "A" "N" none 0), ("B", NewUDPClient "Q" "B" "M" none 0)],
           [("P", "A"), ("Q", "B")]⟩ "A" "P" 3 4 10 5).2 :=
  ⟨(C4_move_semantics
      ⟨[("A", NewUDPClient "P" "A" "N" none 0), ("B", NewUDPClient "Q" "B" "M" none 0)],
       [("P", "A"), ("Q", "B")]⟩ "A" "P" 3 4 10 5
      (NewUDPClient "P" "A" "N" none 0) rfl rfl).2.1.mpr rfl,
   (C4_move_semantics
      ⟨[("A", NewUDPClient "P" "A" "N" none 0), ("B", NewUDPClient "Q" "B" "M" none 0)],
       [("P", "A"), ("Q", "B")]⟩ "A" "P" 3 4 10 5
      (NewUDPClient "P" "A" "N" none 0) rfl rfl).2.2.2.1 "B"
      (NewUDPClient "Q" "B" "M" none 0) rfl (by decide)⟩

/-! ## Claim C5: identity mismatches are dropped silently -/

/-- C5: on both transports, an inbound `PlayerMove`, `PlayerAction` or `Chat`
whose payload player id differs from the owning connection's id leaves the
server state untouched and emits nothing — no Ack, no Error, no broadcast,
no database write. -/
theorem C5_mismatch_dropped (s : UDPGameServer) (gs : GameState)
    (addr playerID clientID act chatText : String) (x y : Rat) (sequence : Nat)
    (now : Int) (sessionID : Option Int) (c : UDPClient) (sc : Client)
    (hu : lookupA addr s.clients = some c) (hne : ¬ c.ID = playerID)
    (hs : lookupA clientID gs.clients = some sc) (hne2 : ¬ playerID = clientID) :
    handlePlayerMove s addr playerID x y sequence now = (s, [])
    ∧ UDPGameServer.handlePlayerAction s addr playerID act sequence now = (s, [])
    ∧ handleChat s addr playerID chatText sequence now = (s, [])
    ∧ GameState.HandleMessage gs clientID (SMsg.playerMove playerID x y) sessionID now
        = (gs, [])
    ∧ GameState.HandleMessage gs clientID (SMsg.playerAction playerID act) sessionID now
        = (gs, [])
    ∧ GameState.HandleMessage gs clientID (SMsg.chat playerID chatText) sessionID now
        = (gs, []) := by
  refine ⟨?_, ?_, ?_, ?_, ?_, ?_⟩
  · simp only [handlePlayerMove, hu]
    rw [if_neg hne]
  · simp only [UDPGameServer.handlePlayerAction, hu]
    rw [if_neg hne]
  · simp only [handleChat, hu]
    rw [if_neg hne]
  · simp only [GameState.HandleMessage, hs]
    rw [if_neg hne2]
  · simp only [GameState.HandleMessage, hs]
    rw [if_neg hne2]
  · simp only [GameState.HandleMessage, hs]
    rw [if_neg hne2]

/-- Witness for C5: owner id `P`, payload id `Q`. -/
theorem C5_mismatch_dropped_witness :
    handlePlayerMove ⟨[("A", NewUDPClient "P" "A" "N" none 0)], [("P", "A")]⟩
        "A" "Q" 3 4 7 0
      = (⟨[("A", NewUDPClient "P" "A" "N" none 0)], [("P", "A")]⟩, [])
    ∧ GameState.HandleMessage ⟨[("P", NewClient "P" "N")]⟩ "P"
        (SMsg.chat "Q" "hi") none 0 = (⟨[("P", NewClient "P" "N")]⟩, []) :=
  ⟨(C5_mismatch_dropped
      ⟨[("A", NewUDPClient "P" "A" "N" none 0)], [("P", "A")]⟩
      ⟨[("P", NewClient "P" "N")]⟩ "A" "Q" "P" "pickup" "hi" 3 4 7 0 none
      (NewUDPClient "P" "A" "N" none 0) (NewClient "P" "N")
      rfl (by decide) rfl (by decide)).1,
   (C5_mismatch_dropped
      ⟨[("A", NewUDPClient "P" "A" "N" none 0)], [("P", "A")]⟩
      ⟨[("P", NewClient "P" "N")]⟩ "A" "Q" "P" "pickup" "hi" 3 4 7 0 none
      (NewUDPClient "P" "A" "N" none 0) (NewClient "P" "N")
      rfl (by decide) rfl (by decide)).2.2.2.2.2⟩

/-! ## Claim C7: stream registration flow -/

theorem broadcast_filterMap_eq_map (a : String) (m : GMsg) (l : List (String × Client))
    (hall : ∀ p ∈ l, p.1 ≠ a) :
    (l.filterMap fun p =>
        if some a = some p.1 then none else some (SEffect.sendMsg p.1 m))
      = l.map fun p => SEffect.sendMsg p.1 m := by
  induction l with
  | nil => rfl
  | cons p rest ih =>
      have hne : ¬ some a = some p.1 := by
        intro hcontra
        exact hall p (List.mem_cons_self _ _) (by injection hcontra with h1; exact h1.symm)
      rw [List.filterMap_cons, if_neg hne, List.map_cons]
      rw [ih fun q hq => hall q (List.mem_cons_of_mem _ hq)]

/-- C7: registering a freshly minted stream client derives the display name
`Player_` + the id's first 8 characters and emits, in this order: the player
upsert and `join` event log, a `PlayerJoin` to the new client itself, a
`PlayerJoin` to every other client (none when the roster was empty), and
finally the full `GameState` snapshot — containing the new player with
x=0, y=0, health=100, score=0 — to the new client only. -/
theorem C7_stream_join_flow (gs : GameState) (clientID : String)
    (sessionID : Option Int) (now : Int)
    (hfresh : lookupA clientID gs.clients = none) :
    (stepGame gs (SEvent.add clientID sessionID now)).2
      = [SEffect.db (DBOp.createOrUpdatePlayer
            (NewPlayer clientID ("Player_" ++ clientID.take 8))),
         SEffect.db (DBOp.logEvent clientID sessionID "join"),
         SEffect.sendMsg clientID
            (GMsg.playerJoin clientID ("Player_" ++ clientID.take 8))]
        ++ (gs.clients.map fun p => SEffect.sendMsg p.1
              (GMsg.playerJoin clientID ("Player_" ++ clientID.take 8)))
        ++ [SEffect.sendMsg clientID (GMsg.gameState
              (NewPlayer clientID ("Player_" ++ clientID.take 8)
                :: gs.clients.map fun p => p.2.player) now)]
    ∧ NewPlayer clientID ("Player_" ++ clientID.take 8)
        = ⟨clientID, "Player_" ++ clientID.take 8, 0, 0, 100, 0⟩ := by
  constructor
  · have herase : eraseA clientID gs.clients = gs.clients :=
      eraseA_eq_self_of_lookupA_eq_none hfresh
    have hall := forall_ne_of_lookupA_eq_none hfresh
    simp only [stepGame, GameState.AddClient, NewClient, insertA, herase,
      GameState.broadcastMessage, GameState.sendGameStateToClient,
      List.filterMap_cons, lookupA_cons, List.map_cons, if_true, if_false, NewPlayer]
    rw [broadcast_filterMap_eq_map _ _ _ hall]
  · rfl

/-- Witness for C7: the scenario client joining an empty roster — only the
self `PlayerJoin` and the singleton `GameState` snapshot are sent. -/
theorem C7_stream_join_flow_witness :
    (stepGame initGameState
        (SEvent.add "11111111-1111-1111-1111-111111111111" (some 1) 1700)).2
      = [SEffect.db (DBOp.createOrUpdatePlayer
            (NewPlayer "11111111-1111-1111-1111-111111111111" "Player_11111111")),
         SEffect.db (DBOp.logEvent "11111111-1111-1111-1111-111111111111"
            (some 1) "join"),
         SEffect.sendMsg "11111111-1111-1111-1111-111111111111"
            (GMsg.playerJoin "11111111-1111-1111-1111-111111111111" "Player_11111111"),
         SEffect.sendMsg "11111111-1111-1111-1111-111111111111"
            (GMsg.gameState
              [⟨"11111111-1111-1111-1111-111111111111", "Player_11111111",
                0, 0, 100, 0⟩] 1700)] := by
  have h := C7_stream_join_flow initGameState
    "11111111-1111-1111-1111-111111111111" (some 1) 1700 rfl
  rw [h.1]
  rfl

/-! ## Claim C9: health values

The source's `UpdateHealth` (both transports) stores its argument without any
clamping; no message handler ever calls it, so every player in a reachable
roster keeps the creation health 100. -/

/-- C9 counterexample: `UpdateHealth(150)` stores 150 — outside [0,100] and
not the clamped 100 the claim asserts — on both client types. -/
theorem C9_no_clamping_counterexample :
    (Client.UpdateHealth (NewClient "P" "N") 150).player.Health = 150
    ∧ ¬ ((Client.UpdateHealth (NewClient "P" "N") 150).player.Health ≤ 100)
    ∧ (UDPClient.UpdateHealth (NewUDPClient "P" "A" "N" none 0) 150).Player.Health = 150
    ∧ (Client.UpdateHealth (NewClient "P" "N") (-5)).player.Health = -5 := by
  refine ⟨rfl, ?_, rfl, rfl⟩
  show ¬ ((150 : Rat) ≤ 100)
  norm_num

/-! Membership lemmas describing how each bulk operation transforms the
client table's entries. -/

theorem mem_updateA {α β : Type} [DecidableEq α] {k : α} {f : β → β}
    {l : List (α × β)} {p : α × β} (h : p ∈ updateA k f l) :
    ∃ q ∈ l, p.1 = q.1 ∧ (p.2 = q.2 ∨ p.2 = f q.2) := by
  rcases List.mem_map.mp h with ⟨q, hq, hqe⟩
  by_cases hk : q.1 = k
  · rw [if_pos hk] at hqe
    exact ⟨q, hq, by rw [← hqe], Or.inr (by rw [← hqe])⟩
  · rw [if_neg hk] at hqe
    exact ⟨q, hq, by rw [← hqe], Or.inl (by rw [← hqe])⟩

theorem mem_insertA {α β : Type} [DecidableEq α] {k : α} {v : β}
    {l : List (α × β)} {p : α × β} (h : p ∈ insertA k v l) :
    p = (k, v) ∨ p ∈ l := by
  rcases List.mem_cons.mp h with h1 | h2
  · exact Or.inl h1
  · exact Or.inr (List.mem_of_mem_filter h2)

theorem mem_broadcastReliableList {message : GMsg} {exclude : Option String}
    {now : Int} {l : List (String × UDPClient)} {p : String × UDPClient}
    (h : p ∈ (broadcastReliableList message exclude now l).1) :
    ∃ q ∈ l, p.1 = q.1 ∧ (p.2 = q.2 ∨ p.2 = (q.2.NextSequence.1.AddPendingAck
      ⟨q.2.NextSequence.2, now, message, true⟩ now)) := by
  induction l with
  | nil => simp [broadcastReliableList] at h
  | cons q rest ih =>
      obtain ⟨a, c⟩ := q
      simp only [broadcastReliableList] at h
      by_cases hex : exclude = some a
      · rw [if_pos hex] at h
        rcases List.mem_cons.mp h with h1 | h2
        · exact ⟨(a, c), List.mem_cons_self _ _, by rw [h1], Or.inl (by rw [h1])⟩
        · rcases ih h2 with ⟨q', hq', he, hv⟩
          exact ⟨q', List.mem_cons_of_mem _ hq', he, hv⟩
      · rw [if_neg hex] at h
        rcases List.mem_cons.mp h with h1 | h2
        · exact ⟨(a, c), List.mem_cons_self _ _, by rw [h1], Or.inr (by rw [h1])⟩
        · rcases ih h2 with ⟨q', hq', he, hv⟩
          exact ⟨q', List.mem_cons_of_mem _ hq', he, hv⟩

theorem mem_reliabilityList {now : Int} {l : List (String × UDPClient)}
    {p : String × UDPClient} (h : p ∈ (reliabilityList now l).1) :
    ∃ q ∈ l, p.1 = q.1 ∧ p.2 = (resendClient q.1 now q.2).1 := by
  induction l with
  | nil => simp [reliabilityList] at h
  | cons q rest ih =>
      obtain ⟨a, c⟩ := q
      simp only [reliabilityList] at h
      rcases List.mem_cons.mp h with h1 | h2
      · exact ⟨(a, c), List.mem_cons_self _ _, by rw [h1], by rw [h1]⟩
      · rcases ih h2 with ⟨q', hq', he, hv⟩
        exact ⟨q', List.mem_cons_of_mem _ hq', he, hv⟩

/-- The roster-wide health-100 invariant for the datagram machine. -/
def HealthAll (l : List (String × UDPClient)) : Prop :=
  ∀ p ∈ l, p.2.Player.Health = 100

theorem healthAll_updateA {k : String} {f : UDPClient → UDPClient}
    {l : List (String × UDPClient)}
    (hf : ∀ c, (f c).Player.Health = 100 ∨ (f c).Player.Health = c.Player.Health)
    (h : HealthAll l) : HealthAll (updateA k f l) := by
  intro p hp
  rcases mem_updateA hp with ⟨q, hq, _, hv | hv⟩
  · rw [hv]; exact h q hq
  · rw [hv]
    rcases hf q.2 with h1 | h1
    · exact h1
    · rw [h1]; exact h q hq

theorem healthAll_broadcastReliableList {message : GMsg} {exclude : Option String}
    {now : Int} {l : List (String × UDPClient)} (h : HealthAll l) :
    HealthAll (broadcastReliableList message exclude now l).1 := by
  intro p hp
  rcases mem_broadcastReliableList hp with ⟨q, hq, _, hv | hv⟩
  · rw [hv]; exact h q hq
  · rw [hv]; exact h q hq

theorem healthAll_sendGameState {s : UDPGameServer} {addr : String} {now : Int}
    (h : HealthAll s.clients) :
    HealthAll (sendGameStateToClient s addr now).1.clients := by
  unfold sendGameStateToClient
  cases hx : lookupA addr s.clients with
  | none => simpa using h
  | some c =>
      simp only
      apply healthAll_updateA _ h
      intro c'
      left
      show c.Player.Health = 100
      exact h (addr, c) (mem_of_lookupA hx)

theorem healthAll_step (s : UDPGameServer) (e : UEvent)
    (h : HealthAll s.clients) : HealthAll (stepState s e).clients := by
  cases e with
  | heartbeat addr ip playerID sequence now sid =>
      show HealthAll (handleHeartbeat s addr ip playerID sequence now sid).1.clients
      unfold handleHeartbeat
      cases hx : lookupA addr s.clients with
      | none =>
          simp only
          apply healthAll_sendGameState
          show HealthAll (broadcastReliableList _ _ _ _).1
          apply healthAll_broadcastReliableList
          intro p hp
          rcases mem_insertA hp with h1 | h1
          · rw [h1]; rfl
          · exact h p h1
      | some c =>
          simp only
          exact healthAll_updateA (fun c' => Or.inr rfl) h
  | ackPacket addr sequence =>
      show HealthAll (handleAck s addr sequence).1.clients
      unfold handleAck
      cases hx : lookupA addr s.clients with
      | none => exact h
      | some c =>
          show HealthAll (updateA addr (fun c => c.RemovePendingAck sequence) s.clients)
          apply healthAll_updateA _ h
          intro c'
          exact Or.inr rfl
  | move addr playerID x y sequence now =>
      show HealthAll (handlePlayerMove s addr playerID x y sequence now).1.clients
      unfold handlePlayerMove
      cases hx : lookupA addr s.clients with
      | none => exact h
      | some c =>
          simp only
          by_cases hid : c.ID = playerID
          · rw [if_pos hid]
            show HealthAll (updateA addr (fun c => c.UpdatePosition x y now) s.clients)
            apply healthAll_updateA _ h
            intro c'
            exact Or.inr rfl
          · rw [if_neg hid]
            exact h
  | action addr playerID act sequence now =>
      show HealthAll
        (UDPGameServer.handlePlayerAction s addr playerID act sequence now).1.clients
      unfold UDPGameServer.handlePlayerAction
      cases hx : lookupA addr s.clients with
      | none => exact h
      | some c =>
          simp only
          by_cases hid : c.ID = playerID
          · rw [if_pos hid]
            by_cases ha : act = "attack"
            · rw [if_pos ha]; exact h
            · rw [if_neg ha]
              by_cases hp : act = "pickup"
              · rw [if_pos hp]
                show HealthAll (updateA addr (fun c => c.AddScore 10) s.clients)
                apply healthAll_updateA _ h
                intro c'
                exact Or.inr rfl
              · rw [if_neg hp]; exact h
          · rw [if_neg hid]; exact h
  | chatPacket addr playerID message sequence now =>
      show HealthAll (handleChat s addr playerID message sequence now).1.clients
      unfold handleChat
      cases hx : lookupA addr s.clients with
      | none => exact h
      | some c =>
          simp only
          by_cases hid : c.ID = playerID
          · rw [if_pos hid]
            exact healthAll_broadcastReliableList h
          · rw [if_neg hid]; exact h
  | heartbeatTick now => exact h
  | cleanupTick now =>
      intro p hp
      exact h p (List.mem_of_mem_filter hp)
  | resendTick now =>
      intro p hp
      rcases mem_reliabilityList hp with ⟨q, hq, _, hv⟩
      rw [hv]
      exact h q hq

theorem healthAll_run (s : UDPGameServer) (tr : List UEvent)
    (h : HealthAll s.clients) : HealthAll (runServer s tr).clients := by
  induction tr generalizing s with
  | nil => exact h
  | cons e es ih => exact ih _ (healthAll_step s e h)

/-- The roster-wide health-100 invariant for the stream machine. -/
def HealthAllS (l : List (String × Client)) : Prop :=
  ∀ p ∈ l, p.2.player.Health = 100

theorem healthAllS_updateA {k : String} {f : Client → Client}
    {l : List (String × Client)}
    (hf : ∀ c, (f c).player.Health = c.player.Health)
    (h : HealthAllS l) : HealthAllS (updateA k f l) := by
  intro p hp
  rcases mem_updateA hp with ⟨q, hq, _, hv | hv⟩
  · rw [hv]; exact h q hq
  · rw [hv, hf]; exact h q hq

theorem healthAllS_step (gs : GameState) (e : SEvent)
    (h : HealthAllS gs.clients) : HealthAllS (stepGameState gs e).clients := by
  cases e with
  | add clientID sessionID now =>
      show HealthAllS (GameState.AddClient gs _ sessionID now).1.clients
      unfold GameState.AddClient
      intro p hp
      rcases mem_insertA hp with h1 | h1
      · rw [h1]; rfl
      · exact h p h1
  | msg clientID message sessionID now =>
      show HealthAllS (GameState.HandleMessage gs clientID message sessionID now).1.clients
      unfold GameState.HandleMessage
      cases hx : lookupA clientID gs.clients with
      | none => exact h
      | some c =>
          cases message with
          | playerMove playerID x y =>
              simp only
              by_cases hid : playerID = clientID
              · rw [if_pos hid]
                show HealthAllS (updateA clientID
                  (fun c => c.UpdatePosition x y) gs.clients)
                apply healthAllS_updateA _ h
                intro c'
                rfl
              · rw [if_neg hid]; exact h
          | playerAction playerID act =>
              simp only
              by_cases hid : playerID = clientID
              · rw [if_pos hid]
                show HealthAllS (GameState.handlePlayerAction gs clientID act sessionID).1.clients
                unfold GameState.handlePlayerAction
                cases hy : lookupA clientID gs.clients with
                | none => exact h
                | some c2 =>
                    simp only
                    by_cases ha : act = "attack"
                    · rw [if_pos ha]; exact h
                    · rw [if_neg ha]
                      by_cases hp : act = "pickup"
                      · rw [if_pos hp]
                        show HealthAllS (updateA clientID (fun c => c.AddScore 10) gs.clients)
                        apply healthAllS_updateA _ h
                        intro c'
                        rfl
                      · rw [if_neg hp]; exact h
              · rw [if_neg hid]; exact h
          | chat playerID chatText =>
              simp only
              by_cases hid : playerID = clientID
              · rw [if_pos hid]; exact h
              · rw [if_neg hid]; exact h
          | other => exact h
  | remove clientID =>
      show HealthAllS (GameState.RemoveClient gs clientID).1.clients
      unfold GameState.RemoveClient
      cases hx : lookupA clientID gs.clients with
      | none => exact h
      | some c =>
          intro p hp
          exact h p (List.mem_of_mem_filter hp)

theorem healthAllS_run (gs : GameState) (tr : List SEvent)
    (h : HealthAllS gs.clients) : HealthAllS (runGame gs tr).clients := by
  induction tr generalizing gs with
  | nil => exact h
  | cons e es ih => exact ih _ (healthAllS_step gs e h)

/-- C9, amended: players are created with health 100 and no reachable
operation of either machine ever modifies health, so every roster player's
health is exactly 100 — in particular within [0,100]; `UpdateHealth` itself
stores its argument without clamping. -/
theorem C9_health_amended :
    (∀ tr : List UEvent, ∀ p ∈ (runServer initServer tr).clients,
        p.2.Player.Health = 100 ∧ 0 ≤ p.2.Player.Health ∧ p.2.Player.Health ≤ 100)
    ∧ (∀ tr : List SEvent, ∀ p ∈ (runGame initGameState tr).clients,
        p.2.player.Health = 100 ∧ 0 ≤ p.2.player.Health ∧ p.2.player.Health ≤ 100)
    ∧ (∀ id name, (NewPlayer id name).Health = 100)
    ∧ (∀ c h, (Client.UpdateHealth c h).player.Health = h)
    ∧ (∀ uc h, (UDPClient.UpdateHealth uc h).Player.Health = h) := by
  refine ⟨?_, ?_, fun id name => rfl, fun c h => rfl, fun uc h => rfl⟩
  · intro tr p hp
    have h100 := healthAll_run initServer tr (by intro q hq; simp [initServer] at hq) p hp
    rw [h100]
    norm_num
  · intro tr p hp
    have h100 := healthAllS_run initGameState tr
      (by intro q hq; simp [initGameState] at hq) p hp
    rw [h100]
    norm_num

/-- Witness for C9's amended statement: the roster after one stream join has
its single player at health 100, and `UpdateHealth` stores 150 verbatim. -/
theorem C9_health_amended_witness :
    (("P", NewClient "P" "Player_P").2.player.Health = 100
      ∧ 0 ≤ ("P", NewClient "P" "Player_P").2.player.Health
      ∧ ("P", NewClient "P" "Player_P").2.player.Health ≤ 100)
    ∧ (Client.UpdateHealth (NewClient "Q" "M") 150).player.Health = 150 :=
  ⟨C9_health_amended.2.1 [SEvent.add "P" none 0] ("P", NewClient "P" "Player_P")
      (by decide),
   C9_health_amended.2.2.2.1 (NewClient "Q" "M") 150⟩

/-! ## Claim C1: only reliable packets are pending, only pendings retransmit -/

/-- The invariant that every packet stored in any client's pending-ack map is
reliable. -/
def PendAll (l : List (String × UDPClient)) : Prop :=
  ∀ p ∈ l, ∀ q ∈ p.2.PendingAcks, q.2.Packet.Reliable = true

theorem pendAll_updateA {k : String} {f : UDPClient → UDPClient}
    {l : List (String × UDPClient)}
    (hf : ∀ c, (∀ q ∈ c.PendingAcks, q.2.Packet.Reliable = true) →
        ∀ q ∈ (f c).PendingAcks, q.2.Packet.Reliable = true)
    (h : PendAll l) : PendAll (updateA k f l) := by
  intro p hp
  rcases mem_updateA hp with ⟨q, hq, _, hv | hv⟩
  · rw [hv]; exact h q hq
  · rw [hv]; exact hf q.2 (h q hq)

theorem addPendingAck_pendings {c : UDPClient} {packet : UPacket} {now : Int}
    (hc : ∀ q ∈ c.PendingAcks, q.2.Packet.Reliable = true)
    (hr : packet.Reliable = true) :
    ∀ q ∈ (c.AddPendingAck packet now).PendingAcks, q.2.Packet.Reliable = true := by
  intro q hq
  rcases mem_insertA hq with h1 | h1
  · rw [h1]; exact hr
  · exact hc q h1

theorem pendAll_broadcastReliableList {message : GMsg} {exclude : Option String}
    {now : Int} {l : List (String × UDPClient)} (h : PendAll l) :
    PendAll (broadcastReliableList message exclude now l).1 := by
  intro p hp
  rcases mem_broadcastReliableList hp with ⟨q, hq, _, hv | hv⟩
  · rw [hv]; exact h q hq
  · rw [hv]
    exact addPendingAck_pendings (h q hq) rfl

theorem pendAll_sendGameState {s : UDPGameServer} {addr : String} {now : Int}
    (h : PendAll s.clients) :
    PendAll (sendGameStateToClient s addr now).1.clients := by
  unfold sendGameStateToClient
  cases hx : lookupA addr s.clients with
  | none => simpa using h
  | some c =>
      simp only
      apply pendAll_updateA _ h
      intro c' _
      exact addPendingAck_pendings (h (addr, c) (mem_of_lookupA hx)) rfl

theorem pendAll_resendClient {a : String} {now : Int} {c : UDPClient}
    (hc : ∀ q ∈ c.PendingAcks, q.2.Packet.Reliable = true) :
    ∀ q ∈ (resendClient a now c).1.PendingAcks, q.2.Packet.Reliable = true := by
  intro q hq
  rcases List.mem_map.mp hq with ⟨q0, hq0, hqe⟩
  by_cases hcond : decide (now - q0.2.Timestamp > 100) = true
  · rw [if_pos hcond] at hqe
    rw [← hqe]
    exact hc q0 hq0
  · rw [if_neg hcond] at hqe
    rw [← hqe]
    exact hc q0 hq0

theorem pendAll_step (s : UDPGameServer) (e : UEvent)
    (h : PendAll s.clients) : PendAll (stepState s e).clients := by
  cases e with
  | heartbeat addr ip playerID sequence now sid =>
      show PendAll (handleHeartbeat s addr ip playerID sequence now sid).1.clients
      unfold handleHeartbeat
      cases hx : lookupA addr s.clients with
      | none =>
          simp only
          apply pendAll_sendGameState
          show PendAll (broadcastReliableList _ _ _ _).1
          apply pendAll_broadcastReliableList
          intro p hp
          rcases mem_insertA hp with h1 | h1
          · rw [h1]
            intro q hq
            exact absurd hq (by simp [NewUDPClient])
          · exact h p h1
      | some c =>
          simp only
          show PendAll (updateA addr
            (fun c => { c with LastSeen := now, AckSequence := sequence }) s.clients)
          apply pendAll_updateA _ h
          intro c' hc'
          exact hc'
  | ackPacket addr sequence =>
      show PendAll (handleAck s addr sequence).1.clients
      unfold handleAck
      cases hx : lookupA addr s.clients with
      | none => exact h
      | some c =>
          show PendAll (updateA addr (fun c => c.RemovePendingAck sequence) s.clients)
          apply pendAll_updateA _ h
          intro c' hc' q hq
          exact hc' q (List.mem_of_mem_filter hq)
  | move addr playerID x y sequence now =>
      show PendAll (handlePlayerMove s addr playerID x y sequence now).1.clients
      unfold handlePlayerMove
      cases hx : lookupA addr s.clients with
      | none => exact h
      | some c =>
          simp only
          by_cases hid : c.ID = playerID
          · rw [if_pos hid]
            show PendAll (updateA addr (fun c => c.UpdatePosition x y now) s.clients)
            apply pendAll_updateA _ h
            intro c' hc'
            exact hc'
          · rw [if_neg hid]; exact h
  | action addr playerID act sequence now =>
      show PendAll
        (UDPGameServer.handlePlayerAction s addr playerID act sequence now).1.clients
      unfold UDPGameServer.handlePlayerAction
      cases hx : lookupA addr s.clients with
      | none => exact h
      | some c =>
          simp only
          by_cases hid : c.ID = playerID
          · rw [if_pos hid]
            by_cases ha : act = "attack"
            · rw [if_pos ha]; exact h
            · rw [if_neg ha]
              by_cases hp : act = "pickup"
              · rw [if_pos hp]
                show PendAll (updateA addr (fun c => c.AddScore 10) s.clients)
                apply pendAll_updateA _ h
                intro c' hc'
                exact hc'
              · rw [if_neg hp]; exact h
          · rw [if_neg hid]; exact h
  | chatPacket addr playerID message sequence now =>
      show PendAll (handleChat s addr playerID message sequence now).1.clients
      unfold handleChat
      cases hx : lookupA addr s.clients with
      | none => exact h
      | some c =>
          simp only
          by_cases hid : c.ID = playerID
          · rw [if_pos hid]
            exact pendAll_broadcastReliableList h
          · rw [if_neg hid]; exact h
  | heartbeatTick now => exact h
  | cleanupTick now =>
      intro p hp
      exact h p (List.mem_of_mem_filter hp)
  | resendTick now =>
      intro p hp
      rcases mem_reliabilityList hp with ⟨q, hq, _, hv⟩
      rw [hv]
      exact pendAll_resendClient (h q hq)

theorem pendAll_run (s : UDPGameServer) (tr : List UEvent)
    (h : PendAll s.clients) : PendAll (runServer s tr).clients := by
  induction tr generalizing s with
  | nil => exact h
  | cons e es ih => exact ih _ (pendAll_step s e h)

theorem mem_reliabilityList_effects {now : Int} {l : List (String × UDPClient)}
    {e : UEffect} (h : e ∈ (reliabilityList now l).2) :
    ∃ q ∈ l, ∃ pq ∈ q.2.PendingAcks, e = UEffect.sendTo q.1 pq.2.Packet := by
  induction l with
  | nil => simp [reliabilityList] at h
  | cons q rest ih =>
      obtain ⟨a, c⟩ := q
      simp only [reliabilityList] at h
      rcases List.mem_append.mp h with h1 | h2
      · rcases List.mem_filterMap.mp h1 with ⟨pq, hpq, hcond⟩
        by_cases hc : decide (now - pq.2.Timestamp > 100) = true
        · rw [if_pos hc] at hcond
          exact ⟨(a, c), List.mem_cons_self _ _, pq, hpq,
            by injection hcond with h3; rw [← h3]⟩
        · rw [if_neg hc] at hcond
          exact absurd hcond (by simp)
      · rcases ih h2 with ⟨q', hq', pq, hpq, he⟩
        exact ⟨q', List.mem_cons_of_mem _ hq', pq, hpq, he⟩

/-- C1: in every reachable state of the UDP server, every packet stored in
any client's pending-ack map has `reliable = true` (only the reliable send
paths insert pending packets), and every datagram emitted by a retransmission
sweep is the stored packet of some pending entry — hence reliable; a packet
sent with `reliable = false` (Ack, unreliable broadcast, server heartbeat) is
never retransmitted. -/
theorem C1_only_reliable_retransmitted (tr : List UEvent) :
    PendAll (runServer initServer tr).clients
    ∧ (∀ now e,
        e ∈ (stepServer (runServer initServer tr) (UEvent.resendTick now)).2 →
        ∃ a pkt, e = UEffect.sendTo a pkt ∧ pkt.Reliable = true) := by
  have hinv : PendAll (runServer initServer tr).clients :=
    pendAll_run initServer tr (by intro q hq; simp [initServer] at hq)
  refine ⟨hinv, ?_⟩
  intro now e he
  rcases mem_reliabilityList_effects he with ⟨q, hq, pq, hpq, heq⟩
  exact ⟨q.1, pq.2.Packet, heq, hinv q hq pq hpq⟩

/-- Witness for C1: after one admission the pending game-state packet is
reliable, and the 200 ms sweep re-sends exactly that reliable packet. -/
theorem C1_only_reliable_retransmitted_witness :
    (1, (⟨⟨1, 0, GMsg.gameState [NewPlayer "P" "Player_P"] 0, true⟩, 0⟩ :
        PendingPacket)).2.Packet.Reliable = true
    ∧ ∃ a pkt,
        UEffect.sendTo "A" ⟨1, 0, GMsg.gameState [NewPlayer "P" "Player_P"] 0, true⟩
          = UEffect.sendTo a pkt ∧ pkt.Reliable = true :=
  ⟨(C1_only_reliable_retransmitted [UEvent.heartbeat "A" "ip" "P" 7 0 (some 1)]).1
      ("A", ⟨"P", "A", NewPlayer "P" "Player_P", 0, 1, 0,
        [(1, ⟨⟨1, 0, GMsg.gameState [NewPlayer "P" "Player_P"] 0, true⟩, 0⟩)], some 1⟩)
      (by decide)
      (1, ⟨⟨1, 0, GMsg.gameState [NewPlayer "P" "Player_P"] 0, true⟩, 0⟩)
      (by decide),
   (C1_only_reliable_retransmitted [UEvent.heartbeat "A" "ip" "P" 7 0 (some 1)]).2
      200 (UEffect.sendTo "A" ⟨1, 0, GMsg.gameState [NewPlayer "P" "Player_P"] 0, true⟩)
      (by decide)⟩

/-! ## Claim C2: client table and reverse index consistency -/

/-- The consistency property of the two indices: endpoint keys are unique,
player-id keys are unique, and every client-table entry is mirrored by its
reverse-index entry. -/
def ConsistentInv (s : UDPGameServer) : Prop :=
  (s.clients.map Prod.fst).Nodup
  ∧ (s.clientByID.map Prod.fst).Nodup
  ∧ ∀ p ∈ s.clients, lookupA p.2.ID s.clientByID = some p.1

theorem map_fst_updateA {α β : Type} [DecidableEq α] (k : α) (f : β → β)
    (l : List (α × β)) : (updateA k f l).map Prod.fst = l.map Prod.fst := by
  induction l with
  | nil => rfl
  | cons p rest ih =>
      obtain ⟨a, b⟩ := p
      rw [updateA_cons]
      by_cases h : a = k
      · rw [if_pos h, List.map_cons, List.map_cons, ih]
      · rw [if_neg h, List.map_cons, List.map_cons, ih]

theorem map_fst_broadcastReliableList (message : GMsg) (exclude : Option String)
    (now : Int) (l : List (String × UDPClient)) :
    (broadcastReliableList message exclude now l).1.map Prod.fst = l.map Prod.fst := by
  induction l with
  | nil => rfl
  | cons p rest ih =>
      obtain ⟨a, c⟩ := p
      simp only [broadcastReliableList]
      by_cases hex : exclude = some a
      · rw [if_pos hex, List.map_cons, List.map_cons, ih]
      · rw [if_neg hex, List.map_cons, List.map_cons, ih]

theorem mem_updateA_key {α β : Type} [DecidableEq α] {k : α} {f : β → β}
    {l : List (α × β)} {p : α × β} (h : p ∈ updateA k f l) :
    ∃ q ∈ l, p.1 = q.1 ∧ (p.2 = q.2 ∨ (q.1 = k ∧ p.2 = f q.2)) := by
  rcases List.mem_map.mp h with ⟨q, hq, hqe⟩
  by_cases hk : q.1 = k
  · rw [if_pos hk] at hqe
    exact ⟨q, hq, by rw [← hqe], Or.inr ⟨hk, by rw [← hqe]⟩⟩
  · rw [if_neg hk] at hqe
    exact ⟨q, hq, by rw [← hqe], Or.inl (by rw [← hqe])⟩

/-- Replacing the client table by one with the same keys and per-entry ids
preserves the consistency invariant. -/
theorem consistent_clients_replace {s : UDPGameServer}
    {l' : List (String × UDPClient)} (h : ConsistentInv s)
    (hkeys : l'.map Prod.fst = s.clients.map Prod.fst)
    (hids : ∀ p ∈ l', ∃ q ∈ s.clients, p.1 = q.1 ∧ p.2.ID = q.2.ID) :
    ConsistentInv ⟨l', s.clientByID⟩ := by
  refine ⟨by rw [hkeys]; exact h.1, h.2.1, ?_⟩
  intro p hp
  rcases hids p hp with ⟨q, hq, he1, he2⟩
  rw [he2, he1]
  exact h.2.2 q hq

theorem consistentInv_insert {s : UDPGameServer} {addr : String}
    {client : UDPClient} (h : ConsistentInv s)
    (hfa : lookupA addr s.clients = none)
    (hfp : lookupA client.ID s.clientByID = none) :
    ConsistentInv ⟨insertA addr client s.clients,
      insertA client.ID addr s.clientByID⟩ := by
  have he1 : eraseA addr s.clients = s.clients := eraseA_eq_self_of_lookupA_eq_none hfa
  have he2 : eraseA client.ID s.clientByID = s.clientByID :=
    eraseA_eq_self_of_lookupA_eq_none hfp
  refine ⟨?_, ?_, ?_⟩
  · show ((addr, client) :: eraseA addr s.clients).map Prod.fst |>.Nodup
    rw [he1, List.map_cons, List.nodup_cons]
    exact ⟨fun hmem => by
      rcases List.mem_map.mp hmem with ⟨q, hq, hq1⟩
      exact forall_ne_of_lookupA_eq_none hfa q hq hq1, h.1⟩
  · show ((client.ID, addr) :: eraseA client.ID s.clientByID).map Prod.fst |>.Nodup
    rw [he2, List.map_cons, List.nodup_cons]
    exact ⟨fun hmem => by
      rcases List.mem_map.mp hmem with ⟨q, hq, hq1⟩
      exact forall_ne_of_lookupA_eq_none hfp q hq hq1, h.2.1⟩
  · intro p hp
    show lookupA p.2.ID ((client.ID, addr) :: eraseA client.ID s.clientByID) = some p.1
    rw [he2]
    rcases mem_insertA hp with h1 | h1
    · rw [h1]
      rw [lookupA_cons, if_pos rfl]
    · have hne : p.2.ID ≠ client.ID := by
        intro hcontra
        have := h.2.2 p h1
        rw [hcontra, hfp] at this
        exact absurd this (by simp)
      rw [lookupA_cons, if_neg hne]
      exact h.2.2 p h1

/-- A heartbeat admission is id-fresh when the carried player id is not
already in the reverse index; all other events are unconstrained. -/
def admissionFresh (s : UDPGameServer) : UEvent → Bool
  | UEvent.heartbeat addr _ playerID _ _ _ =>
      match lookupA addr s.clients with
      | none => (lookupA playerID s.clientByID).isNone
      | some _ => true
  | _ => true

/-- A trace is fresh when every admission along it is id-fresh. -/
def freshTrace (s : UDPGameServer) : List UEvent → Bool
  | [] => true
  | e :: es => admissionFresh s e && freshTrace (stepState s e) es

theorem consistent_updateA {s : UDPGameServer} {k : String}
    {f : UDPClient → UDPClient} (h : ConsistentInv s)
    (hf : ∀ c, (f c).ID = c.ID) :
    ConsistentInv ⟨updateA k f s.clients, s.clientByID⟩ := by
  apply consistent_clients_replace h (map_fst_updateA k f s.clients)
  intro p hp
  rcases mem_updateA hp with ⟨q, hq, h1, h2 | h2⟩
  · exact ⟨q, hq, h1, by rw [h2]⟩
  · exact ⟨q, hq, h1, by rw [h2, hf]⟩

theorem consistent_broadcastReliable {s : UDPGameServer} {message : GMsg}
    {exclude : Option String} {now : Int} (h : ConsistentInv s) :
    ConsistentInv ⟨(broadcastReliableList message exclude now s.clients).1,
      s.clientByID⟩ := by
  apply consistent_clients_replace h
    (map_fst_broadcastReliableList message exclude now s.clients)
  intro p hp
  rcases mem_broadcastReliableList hp with ⟨q, hq, h1, h2 | h2⟩
  · exact ⟨q, hq, h1, by rw [h2]⟩
  · exact ⟨q, hq, h1, by rw [h2]; rfl⟩

theorem consistent_sendGameState {s : UDPGameServer} {addr : String} {now : Int}
    (h : ConsistentInv s) :
    ConsistentInv (sendGameStateToClient s addr now).1 := by
  unfold sendGameStateToClient
  cases hx : lookupA addr s.clients with
  | none => simpa using h
  | some c =>
      simp only
      apply consistent_clients_replace h (map_fst_updateA _ _ s.clients)
      intro p hp
      rcases mem_updateA_key hp with ⟨q, hq, h1, h2 | h2⟩
      · exact ⟨q, hq, h1, by rw [h2]⟩
      · refine ⟨q, hq, h1, ?_⟩
        obtain ⟨hk, hv⟩ := h2
        have hq2 : q.2 = c := by
          have hmem : (addr, c) ∈ s.clients := mem_of_lookupA hx
          have hqmem : (addr, q.2) ∈ s.clients := by
            have : q = (addr, q.2) := by
              cases q; simp_all
            rw [← this]
            exact hq
          exact value_eq_of_mem_nodup h.1 hqmem hmem
        rw [hv, hq2]
        rfl

theorem lookupA_filter_of_key_true {α β : Type} [DecidableEq α] (k : α)
    (g : α → Bool) (l : List (α × β)) (h : g k = true) :
    lookupA k (l.filter fun p => g p.1) = lookupA k l := by
  induction l with
  | nil => rfl
  | cons p rest ih =>
      obtain ⟨a, b⟩ := p
      by_cases hk : k = a
      · subst hk
        rw [List.filter_cons_of_pos (by simpa using h), lookupA_cons, lookupA_cons,
          if_pos rfl, if_pos rfl]
      · cases hpred : g a with
        | false =>
            rw [List.filter_cons_of_neg (by simpa using hpred), lookupA_cons,
              if_neg hk]
            exact ih
        | true =>
            rw [List.filter_cons_of_pos (by simpa using hpred), lookupA_cons,
              lookupA_cons, if_neg hk, if_neg hk]
            exact ih

theorem consistent_cleanup {s : UDPGameServer} {now : Int} (h : ConsistentInv s) :
    ConsistentInv (cleanupTask s now).1 := by
  refine ⟨?_, ?_, ?_⟩
  · exact h.1.sublist (List.Sublist.map Prod.fst (List.filter_sublist s.clients))
  · exact h.2.1.sublist (List.Sublist.map Prod.fst (List.filter_sublist s.clientByID))
  · intro p hp
    have hpc : p ∈ s.clients := List.mem_of_mem_filter hp
    have hsurv : p.2.IsTimeout now = false := by
      have := List.of_mem_filter hp
      cases hb : p.2.IsTimeout now with
      | false => rfl
      | true => rw [hb] at this; exact absurd this (by simp)
    have hnotin : ((s.clients.filter fun q => q.2.IsTimeout now).map
        fun q => q.2.ID).contains p.2.ID = false := by
      cases hb : ((s.clients.filter fun q => q.2.IsTimeout now).map
          fun q => q.2.ID).contains p.2.ID with
      | false => rfl
      | true =>
          exfalso
          have hmem := List.mem_of_elem_eq_true hb
          rcases List.mem_map.mp hmem with ⟨q, hqf, hqid⟩
          have hqc : q ∈ s.clients := List.mem_of_mem_filter hqf
          have hqt : q.2.IsTimeout now = true := by
            have := List.of_mem_filter hqf
            simpa using this
          have hkey : q.1 = p.1 := by
            have e1 := h.2.2 q hqc
            have e2 := h.2.2 p hpc
            rw [hqid] at e1
            rw [e1] at e2
            injection e2
          have hval : q.2 = p.2 := by
            have hq' : (p.1, q.2) ∈ s.clients := by
              have : q = (p.1, q.2) := by cases q; simp_all
              rw [← this]; exact hqc
            have hp' : (p.1, p.2) ∈ s.clients := by
              cases p; exact hpc
            exact value_eq_of_mem_nodup h.1 hq' hp'
          rw [hval, hsurv] at hqt
          exact absurd hqt (by simp)
    have hg : (fun k => !(((s.clients.filter fun q => q.2.IsTimeout now).map
        fun q => q.2.ID).contains k)) p.2.ID = true := by
      show (!(((s.clients.filter fun q => q.2.IsTimeout now).map
        fun q => q.2.ID).contains p.2.ID)) = true
      rw [hnotin]
      rfl
    have := lookupA_filter_of_key_true p.2.ID
      (fun k => !(((s.clients.filter fun q => q.2.IsTimeout now).map
        fun q => q.2.ID).contains k)) s.clientByID hg
    show lookupA p.2.ID (s.clientByID.filter _) = some p.1
    rw [this]
    exact h.2.2 p hpc

theorem consistent_step (s : UDPGameServer) (e : UEvent)
    (h : ConsistentInv s) (hf : admissionFresh s e = true) :
    ConsistentInv (stepState s e) := by
  cases e with
  | heartbeat addr ip playerID sequence now sid =>
      show ConsistentInv (handleHeartbeat s addr ip playerID sequence now sid).1
      unfold handleHeartbeat
      cases hx : lookupA addr s.clients with
      | none =>
          simp only
          have hfp : lookupA playerID s.clientByID = none := by
            simp only [admissionFresh, hx] at hf
            exact Option.isNone_iff_eq_none.mp hf
          apply consistent_sendGameState
          show ConsistentInv ⟨(broadcastReliableList _ _ _ _).1, _⟩
          exact consistent_broadcastReliable (consistentInv_insert h hx hfp)
      | some c =>
          simp only
          show ConsistentInv ⟨updateA addr
            (fun c => { c with LastSeen := now, AckSequence := sequence }) s.clients,
            s.clientByID⟩
          exact consistent_updateA h fun c' => rfl
  | ackPacket addr sequence =>
      show ConsistentInv (handleAck s addr sequence).1
      unfold handleAck
      cases hx : lookupA addr s.clients with
      | none => exact h
      | some c =>
          show ConsistentInv ⟨updateA addr
            (fun c => c.RemovePendingAck sequence) s.clients, s.clientByID⟩
          exact consistent_updateA h fun c' => rfl
  | move addr playerID x y sequence now =>
      show ConsistentInv (handlePlayerMove s addr playerID x y sequence now).1
      unfold handlePlayerMove
      cases hx : lookupA addr s.clients with
      | none => exact h
      | some c =>
          simp only
          by_cases hid : c.ID = playerID
          · rw [if_pos hid]
            show ConsistentInv ⟨updateA addr
              (fun c => c.UpdatePosition x y now) s.clients, s.clientByID⟩
            exact consistent_updateA h fun c' => rfl
          · rw [if_neg hid]; exact h
  | action addr playerID act sequence now =>
      show ConsistentInv
        (UDPGameServer.handlePlayerAction s addr playerID act sequence now).1
      unfold UDPGameServer.handlePlayerAction
      cases hx : lookupA addr s.clients with
      | none => exact h
      | some c =>
          simp only
          by_cases hid : c.ID = playerID
          · rw [if_pos hid]
            by_cases ha : act = "attack"
            · rw [if_pos ha]; exact h
            · rw [if_neg ha]
              by_cases hp : act = "pickup"
              · rw [if_pos hp]
                show ConsistentInv ⟨updateA addr
                  (fun c => c.AddScore 10) s.clients, s.clientByID⟩
                exact consistent_updateA h fun c' => rfl
              · rw [if_neg hp]; exact h
          · rw [if_neg hid]; exact h
  | chatPacket addr playerID message sequence now =>
      show ConsistentInv (handleChat s addr playerID message sequence now).1
      unfold handleChat
      cases hx : lookupA addr s.clients with
      | none => exact h
      | some c =>
          simp only
          by_cases hid : c.ID = playerID
          · rw [if_pos hid]
            exact consistent_broadcastReliable h
          · rw [if_neg hid]; exact h
  | heartbeatTick now => exact h
  | cleanupTick now => exact consistent_cleanup h
  | resendTick now =>
      show ConsistentInv ⟨(reliabilityList now s.clients).1, s.clientByID⟩
      apply consistent_clients_replace h
      · induction s.clients with
        | nil => rfl
        | cons p rest ih =>
            obtain ⟨a, c⟩ := p
            simp only [reliabilityList]
            rw [List.map_cons, List.map_cons, ih]
      · intro p hp
        rcases mem_reliabilityList hp with ⟨q, hq, h1, h2⟩
        exact ⟨q, hq, h1, by rw [h2]; rfl⟩

theorem consistent_run (s : UDPGameServer) (tr : List UEvent)
    (h : ConsistentInv s) (hf : freshTrace s tr = true) :
    ConsistentInv (runServer s tr) := by
  induction tr generalizing s with
  | nil => exact h
  | cons e es ih =>
      unfold freshTrace at hf
      simp only [Bool.and_eq_true] at hf
      exact ih _ (consistent_step s e h hf.1) hf.2

/-- C2 counterexample: two endpoints admitting the same player id `P` break
the claimed invariant — the first endpoint's table entry no longer matches
the reverse index. -/
instance consistentInvDecidable (s : UDPGameServer) : Decidable (ConsistentInv s) := by
  unfold ConsistentInv
  infer_instance

theorem C2_consistency_counterexample :
    ¬ ConsistentInv (runServer initServer
      [UEvent.heartbeat "1.1.1.1:1" "1.1.1.1" "P" 1 0 none,
       UEvent.heartbeat "2.2.2.2:2" "2.2.2.2" "P" 1 0 none]) := by
  decide

/-- C2, amended: the invariant — unique endpoint keys, unique player-id keys,
and `clientByID[c.ID] = addr` for every `clients[addr] = c` — holds in every
state reachable by a trace whose admissions all carry a player id not already
present in the reverse index; admission inserts into both maps and timeout
eviction deletes from both, as the step function shows. -/
theorem C2_consistency_amended (tr : List UEvent)
    (hf : freshTrace initServer tr = true) :
    ConsistentInv (runServer initServer tr) := by
  apply consistent_run initServer tr _ hf
  refine ⟨List.nodup_nil, List.nodup_nil, ?_⟩
  intro p hp
  exact absurd hp (by simp [initServer])

/-- Witness for C2's amended statement: two distinct ids admitted from two
endpoints, one later evicted, stay consistent. -/
theorem C2_consistency_amended_witness :
    ConsistentInv (runServer initServer
      [UEvent.heartbeat "1.1.1.1:1" "1.1.1.1" "P" 1 0 none,
       UEvent.heartbeat "2.2.2.2:2" "2.2.2.2" "Q" 1 0 none,
       UEvent.cleanupTick 40000]) :=
  C2_consistency_amended
    [UEvent.heartbeat "1.1.1.1:1" "1.1.1.1" "P" 1 0 none,
     UEvent.heartbeat "2.2.2.2:2" "2.2.2.2" "Q" 1 0 none,
     UEvent.cleanupTick 40000] (by decide)
